import Mathlib

/-!
# rage-edit: value codec, option resolver, command executor, delete engine

A shallow embedding of `src/util.mjs` and `src/delete.mjs`.

* JavaScript values are the inductive type `JsVal`; strings are lists of
  UTF-16 code units, byte sequences are lists of `Fin 256`.
* Functions that can throw return `Except JsError _`. `inferAndStringifyData`
  is the pair the call computes; `inferAndStringifyDataOutcome` adds the error
  thrown when the host cannot create the wire string.
* The asynchronous delete functions are embedded by the argument list they
  hand to `execute`; `_execute` is embedded as a function of the spawn result.
* The temporary `execute` with its two probe promises is embedded as a step
  function on the module state, which records the spawns in a trace.
* Host (Node.js) primitives that the development does not need in concrete
  form are fields of `Runtime`; the constants of `constants.mjs` and the
  statics of `Registry.mjs`, which are not part of the sources at hand, are
  the structures `Constants` and `RegistryCfg`.
* `debug(...)` only logs and is left out.
-/

namespace RageEdit

/-! ## Strings -/

/-- A JavaScript string: the list of its UTF-16 code units. -/
abbrev JsString := List Nat

/-- A byte of a Buffer, ArrayBuffer or Uint8Array. -/
abbrev Byte := Fin 256

/-- The code units of a literal whose characters all lie in the basic plane. -/
def lit (s : String) : JsString := s.data.map Char.toNat

/-- White space and line terminators, the code units removed by
`String.prototype.trim` and skipped by `parseInt`. -/
def isWhiteSpace (c : Nat) : Bool :=
  c == 9 || c == 10 || c == 11 || c == 12 || c == 13 || c == 32 || c == 160 ||
  c == 5760 || (8192 ≤ c && c ≤ 8202) || c == 8232 || c == 8233 || c == 8239 ||
  c == 8287 || c == 12288 || c == 65279

/-- The method `String.prototype.trim`. -/
def trim (s : JsString) : JsString :=
  ((s.dropWhile isWhiteSpace).reverse.dropWhile isWhiteSpace).reverse

/-- Whether `s` begins with `p` (`String.prototype.startsWith`). -/
def startsWith : JsString → JsString → Bool
  | _, [] => true
  | [], _ :: _ => false
  | c :: cs, p :: ps => c == p && startsWith cs ps

/-- Worker of `jsSplit` for a non-empty separator: scans `s` from the left;
`skip` counts the code units of a matched separator still to be passed over,
`cur` is the piece collected since the last separator. -/
def splitGo (sep : JsString) : JsString → Nat → JsString → List JsString
  | [], _, cur => [cur]
  | _ :: cs, skip + 1, cur => splitGo sep cs skip cur
  | c :: cs, 0, cur =>
    if startsWith (c :: cs) sep then cur :: splitGo sep cs (sep.length - 1) []
    else splitGo sep cs 0 (cur ++ [c])

/-- The method `String.prototype.split` with a string separator and no limit. -/
def jsSplit (s sep : JsString) : List JsString :=
  match sep with
  | [] => s.map fun c => [c]
  | _ :: _ => splitGo sep s 0 []

/-- Joins already stringified pieces with `sep`. -/
def joinStrings (sep : JsString) : List JsString → JsString
  | [] => []
  | x :: rest => x ++ (match rest with
    | [] => []
    | _ :: _ => sep ++ joinStrings sep rest)

/-- The call `s.replace(/\//g, '\\')`: every forward slash becomes a backslash. -/
def replaceSlashes (s : JsString) : JsString :=
  s.map fun c => if c = 47 then 92 else c

/-- The call `s.replace(/\0/g, '\\0')`: every NUL code unit becomes the two
code units backslash, zero. -/
def escapeNul : JsString → JsString
  | [] => []
  | c :: cs => if c = 0 then 92 :: 48 :: escapeNul cs else c :: escapeNul cs

/-! ## Decimal and hexadecimal text -/

/-- Decimal digits of `n`, most significant first; `fuel` bounds the number
of digits (any `fuel > n` suffices). -/
def decDigits : Nat → Nat → List Nat
  | 0, _ => []
  | fuel + 1, n => if n < 10 then [n] else decDigits fuel (n / 10) ++ [n % 10]

/-- Decimal text of a natural number. -/
def natToDecimal (n : Nat) : JsString := (decDigits (n + 1) n).map (· + 48)

/-- Decimal text of an integer, with a leading minus sign when negative. -/
def intToDecimal : Int → JsString
  | .ofNat n => natToDecimal n
  | .negSucc n => 45 :: natToDecimal (n + 1)

/-- Value of a code unit as a digit in the given radix. -/
def digitVal (radix c : Nat) : Option Nat :=
  let v := if 48 ≤ c ∧ c ≤ 57 then c - 48
    else if 97 ≤ c ∧ c ≤ 122 then c - 87
    else if 65 ≤ c ∧ c ≤ 90 then c - 55
    else radix
  if v < radix then some v else none

/-- Lower-case hexadecimal digit of a nibble. -/
def hexDigit (d : Nat) : Nat := if d < 10 then 48 + d else 87 + d

/-- The call `buf.toString('hex')`: two lower-case digits per byte. -/
def hexEncode : List Byte → JsString
  | [] => []
  | b :: bs => hexDigit (b.val / 16) :: hexDigit (b.val % 16) :: hexEncode bs

/-- The call `Buffer.from(str, 'hex')`: decodes pairs of hexadecimal digits and
stops at the first pair that is not one (or at a trailing single code unit). -/
def hexDecode : JsString → List Byte
  | a :: b :: rest =>
    match digitVal 16 a, digitVal 16 b with
    | some x, some y => ⟨(16 * x + y) % 256, Nat.mod_lt _ (by decide)⟩ :: hexDecode rest
    | _, _ => []
  | _ => []

/-! ## Values -/

/-- A property key: a string, or a symbol identified by a number. -/
inductive Key where
  | str (s : JsString)
  | sym (id : Nat)
deriving DecidableEq, Repr

/-- A string used where a property key is expected is the string key. -/
instance : Coe JsString Key := ⟨Key.str⟩

/-- A JavaScript Number with an integral or non-finite value. The integer is
the mathematical value; `0` stands for both zeros. Finite non-integral
doubles are not represented. -/
inductive JsNum where
  | int (i : Int)
  | nan
  | inf (negative : Bool)
deriving DecidableEq, Repr

/-- The JavaScript values the library handles. Objects are plain records of
own enumerable properties, keyed by strings or symbols, in insertion order;
accessors, prototypes, functions and symbols as values are not represented. A
`uint8Array` is a view of `length` bytes at `byteOffset` into its underlying
ArrayBuffer `buf`. -/
inductive JsVal where
  | undefined
  | null
  | bool (b : Bool)
  | number (n : JsNum)
  | bigint (i : Int)
  | string (s : JsString)
  | buffer (bytes : List Byte)
  | arrayBuffer (bytes : List Byte)
  | uint8Array (buf : List Byte) (byteOffset length : Nat)
  | array (items : List JsVal)
  | object (fields : List (Key × JsVal))
deriving Repr

/-- Errors thrown by the library or the host. -/
inductive JsError where
  | typeError
  | rangeError
  | syntaxError
  | stringTooLong
  | regError (message : JsString)
deriving DecidableEq, Repr

/-- Host primitives used by the sources and kept abstract here. -/
structure Runtime where
  /-- The call `buf.toString('utf8')`. -/
  utf8Decode : List Byte → JsString
  /-- The call `Buffer.from(str, 'utf8')`. -/
  utf8Encode : JsString → List Byte
  /-- Number-to-string conversion of an integral Number of magnitude at
  least `10^21` (exponent form). -/
  expNotation : Int → JsString
  /-- Whether `typeof BigInt === "function"`. -/
  hasBigInt : Bool
  /-- The call `BigInt(x)`. -/
  toBigInt : JsVal → Except JsError Int
  /-- The call `Buffer.from(x, 'hex')` for an `x` that is an array, a typed
  array, an ArrayBuffer or a plain object. -/
  bufferFromObject : JsVal → Except JsError (List Byte)
  /-- The method `String.prototype.toUpperCase`. -/
  toUpperCase : JsString → JsString
  /-- The greatest length, in code units, of a string the host can create. -/
  maxStringLength : Nat

/-- Modelled from the spec: the constants table of `constants.mjs`, which is
not among the sources; it maps the symbolic registry type names to their
canonical strings, one string per type, and names the two view flags. -/
structure Constants where
  SZ : JsString
  MULTI_SZ : JsString
  EXPAND_SZ : JsString
  DWORD : JsString
  QWORD : JsString
  BINARY : JsString
  NONE : JsString
  ARG_64BIT : JsString
  ARG_32BIT : JsString
  types_distinct : [SZ, MULTI_SZ, EXPAND_SZ, DWORD, QWORD, BINARY, NONE].Nodup

/-- The operator `===` on values. Primitives compare by value and `NaN`
differs from itself. Reference types compare by identity, which values do not
carry: two of them are taken to be distinct allocations. Every use below has
a primitive on one side. -/
def strictEq : JsVal → JsVal → Bool
  | .undefined, .undefined => true
  | .null, .null => true
  | .bool a, .bool b => a == b
  | .number (.int a), .number (.int b) => a == b
  | .number (.inf a), .number (.inf b) => a == b
  | .bigint a, .bigint b => a == b
  | .string a, .string b => a == b
  | _, _ => false

/-- The abstract operation ToBoolean. -/
def truthy : JsVal → Bool
  | .undefined => false
  | .null => false
  | .bool b => b
  | .number (.int i) => i != 0
  | .number .nan => false
  | .number (.inf _) => true
  | .bigint i => i != 0
  | .string s => !s.isEmpty
  | _ => true

/-- The bytes seen through a Uint8Array view. -/
def viewBytes (buf : List Byte) (byteOffset length : Nat) : List Byte :=
  (buf.drop byteOffset).take length

/-- Number-to-string conversion. -/
def numberToString (rt : Runtime) : JsNum → JsString
  | .int i => if i.natAbs < 10 ^ 21 then intToDecimal i else rt.expNotation i
  | .nan => lit "NaN"
  | .inf false => lit "Infinity"
  | .inf true => lit "-Infinity"

mutual
/-- The abstract operation ToString. -/
def jsToString (rt : Runtime) : JsVal → JsString
  | .undefined => lit "undefined"
  | .null => lit "null"
  | .bool true => lit "true"
  | .bool false => lit "false"
  | .number n => numberToString rt n
  | .bigint i => intToDecimal i
  | .string s => s
  | .buffer bytes => rt.utf8Decode bytes
  | .arrayBuffer _ => lit "[object ArrayBuffer]"
  | .uint8Array buf off len =>
    joinStrings (lit ",") ((viewBytes buf off len).map fun b => natToDecimal b.val)
  | .array items => joinItems rt (lit ",") items
  | .object _ => lit "[object Object]"
/-- The method `Array.prototype.join`: `undefined` and `null` items
contribute the empty string, every other item its ToString. -/
def joinItems (rt : Runtime) (sep : JsString) : List JsVal → JsString
  | [] => []
  | x :: rest =>
    (match x with
      | .undefined => []
      | .null => []
      | v => jsToString rt v) ++
    (match rest with
      | [] => []
      | _ :: _ => sep ++ joinItems rt sep rest)
end

/-- The global `parseInt` with no radix, on an already stringified input:
skips leading white space, reads a sign, a `0x`/`0X` marker, then the longest
run of digits; no digit gives `NaN`. The result is the mathematical integer
(a Number holds it exactly up to magnitude `2^53`). -/
def parseIntString (s : JsString) : JsNum :=
  let s1 := s.dropWhile isWhiteSpace
  let negative := startsWith s1 [45]
  let s2 := if startsWith s1 [45] || startsWith s1 [43] then s1.drop 1 else s1
  let hex := startsWith s2 [48, 120] || startsWith s2 [48, 88]
  let radix := if hex then 16 else 10
  let s3 := if hex then s2.drop 2 else s2
  let ds := (s3.takeWhile fun c => (digitVal radix c).isSome).filterMap (digitVal radix)
  if ds.isEmpty then .nan
  else
    let m : Int := (ds.foldl (fun a d => radix * a + d) 0 : Nat)
    .int (if negative then -m else m)

/-- The call `parseInt(x)`. -/
def parseInt (rt : Runtime) (x : JsVal) : JsVal :=
  .number (parseIntString (jsToString rt x))

/-! ## ValueCodec: `inferAndStringifyData` and `parseValueData` -/

/-- The shared tail of the `Uint8Array`, `ArrayBuffer` and `Buffer` cases of
`inferAndStringifyData`, on the bytes of the resulting Buffer. -/
def stringifyBuffer (rt : Runtime) (k : Constants) (bytes : List Byte) (type : JsVal) :
    JsVal × JsVal :=
  let type := if strictEq type .undefined then .string k.BINARY else type
  (.string (if strictEq type (.string k.BINARY) then hexEncode bytes else rt.utf8Decode bytes),
   type)

/-- The function `inferAndStringifyData(data, type)`; the result is the pair
`[data, type]`. The switch is on `data.constructor`. A Uint8Array is replaced
by its `.buffer`, the whole underlying ArrayBuffer, before falling through. -/
def inferAndStringifyData (rt : Runtime) (k : Constants) (data type : JsVal) : JsVal × JsVal :=
  match data with
  | .undefined => (data, type)
  | .null => (data, type)
  | .uint8Array buf _ _ => stringifyBuffer rt k buf type
  | .arrayBuffer bytes => stringifyBuffer rt k bytes type
  | .buffer bytes => stringifyBuffer rt k bytes type
  | .array items =>
    (.string (joinItems rt (lit "\\0") items),
     if strictEq type .undefined then .string k.MULTI_SZ else type)
  | .number _ => (data, if strictEq type .undefined then .string k.DWORD else type)
  | .bigint _ => (data, if strictEq type .undefined then .string k.QWORD else type)
  | .string s =>
    if strictEq type (.string k.BINARY) then (.string (hexEncode (rt.utf8Encode s)), type)
    else if strictEq type (.string k.MULTI_SZ) then (.string (escapeNul s), type)
    else if strictEq type .undefined then (data, .string k.SZ)
    else (data, type)
  | .bool _ => (data, type)
  | .object _ => (data, type)

/-- The error the host throws when it cannot create the wire string of the
call `inferAndStringifyData(data, type)`; `none` when the call creates no
string. `buf.toString(...)` fails with `ERR_STRING_TOO_LONG`, `join` and
`replace` with a RangeError. -/
def conversionError (k : Constants) (data type : JsVal) : Option JsError :=
  match data with
  | .buffer _ => some .stringTooLong
  | .arrayBuffer _ => some .stringTooLong
  | .uint8Array _ _ _ => some .stringTooLong
  | .array _ => some .rangeError
  | .string _ =>
    if strictEq type (.string k.BINARY) then some .stringTooLong
    else if strictEq type (.string k.MULTI_SZ) then some .rangeError
    else none
  | _ => none

/-- The outcome of the call `inferAndStringifyData(data, type)`: the pair that
`inferAndStringifyData` computes, or the error thrown when the wire string to
create is longer than the host allows. -/
def inferAndStringifyDataOutcome (rt : Runtime) (k : Constants) (data type : JsVal) :
    Except JsError (JsVal × JsVal) :=
  match conversionError k data type, (inferAndStringifyData rt k data type).1 with
  | some e, .string s =>
    if rt.maxStringLength < s.length then .error e
    else .ok (inferAndStringifyData rt k data type)
  | _, _ => .ok (inferAndStringifyData rt k data type)

/-- The call `Buffer.from(data, 'hex')`. -/
def bufferFromHex (rt : Runtime) : JsVal → Except JsError (List Byte)
  | .string s => .ok (hexDecode s)
  | .undefined => .error .typeError
  | .null => .error .typeError
  | .bool _ => .error .typeError
  | .number _ => .error .typeError
  | .bigint _ => .error .typeError
  | v => rt.bufferFromObject v

/-- The call `data.split('\\0')`; only strings have the method. -/
def splitMulti : JsVal → Except JsError JsVal
  | .string s => .ok (.array ((jsSplit s (lit "\\0")).map .string))
  | _ => .error .typeError

/-- The function `parseValueData(data, type)`; the result is the pair
`[data, type]`. The four tests run in sequence on the updated `data`. -/
def parseValueData (rt : Runtime) (k : Constants) (data type : JsVal) :
    Except JsError (JsVal × JsVal) := do
  let data ← if strictEq type (.string k.BINARY) then (bufferFromHex rt data).map JsVal.buffer
    else pure data
  let data := if strictEq type (.string k.DWORD) then parseInt rt data else data
  let data ← if strictEq type (.string k.QWORD) && rt.hasBigInt
    then (rt.toBigInt data).map JsVal.bigint else pure data
  let data ← if strictEq type (.string k.MULTI_SZ) then splitMulti data else pure data
  pure (data, type)

/-- Decoding what `inferAndStringifyData` produced: `parseValueData` applied
to the pair it returns. -/
def decodeEncoded (rt : Runtime) (k : Constants) (data type : JsVal) :
    Except JsError (JsVal × JsVal) :=
  parseValueData rt k (inferAndStringifyData rt k data type).1
    (inferAndStringifyData rt k data type).2

/-- The bytes a byte-sequence value denotes. -/
def bytesOf : JsVal → List Byte
  | .buffer bytes => bytes
  | .arrayBuffer bytes => bytes
  | .uint8Array buf off len => viewBytes buf off len
  | _ => []

/-! ## PathNormalizer and OptionResolver -/

/-- The function `sanitizePath(path)` on a string. -/
def sanitizePath (path : JsString) : JsString :=
  let path := trim path
  if 47 ∈ path then replaceSlashes path else path

/-- The call `sanitizePath(x)` on an arbitrary value: only strings have
`trim`, every other value throws a TypeError. -/
def sanitizePathVal : JsVal → Except JsError JsVal
  | .string s => .ok (.string (sanitizePath s))
  | _ => .error .typeError

/-- The own enumerable properties of an object, in insertion order. When a
key is listed twice the later entry is the property (as in an object
literal). -/
abbrev Fields := List (Key × JsVal)

/-- The property stored under `key`, if there is one. -/
def lookup : Fields → Key → Option JsVal
  | [], _ => none
  | (k, v) :: rest, key => (lookup rest key).or (if k = key then some v else none)

/-- The read `obj[key]`: `undefined` when there is no such property. -/
def getProp (obj : Fields) (key : Key) : JsVal := (lookup obj key).getD .undefined

/-- The write `obj[key] = v`: replaces the value in place, or appends a new
property. -/
def setProp (obj : Fields) (key : Key) (v : JsVal) : Fields :=
  if (lookup obj key).isSome then obj.map fun kv => if kv.1 = key then (kv.1, v) else kv
  else obj ++ [(key, v)]

/-- The call `Object.assign(target, source)` on the properties of `source`. -/
def assign (target source : Fields) : Fields :=
  source.foldl (fun t kv => setProp t kv.1 kv.2) target

/-- Modelled from the spec: the statics of the `Registry` class in
`Registry.mjs`, which is not among the sources: the process-wide defaults
`lowercase`, `format` and `bits`, the name `DEFAULT` of the unnamed value and
the property key `IS_OPTIONS` that marks an options object, a key of its own
that is none of the option names. -/
structure RegistryCfg where
  lowercase : JsVal
  format : JsVal
  bits : JsVal
  DEFAULT : JsString
  IS_OPTIONS : JsString
  is_options_fresh : IS_OPTIONS ∉ [lit "lowercase", lit "format", lit "bits", lit "path",
    lit "name", lit "data", lit "bitsArg"]

/-- Whether `typeof x === 'object'`. -/
def typeofObject : JsVal → Bool
  | .null => true
  | .buffer _ => true
  | .arrayBuffer _ => true
  | .uint8Array _ _ _ => true
  | .array _ => true
  | .object _ => true
  | _ => false

/-- The function `isArrayLike(something)`. Reading `.constructor` of `null`
throws; the test for `ArrayBuffer` is commented out in the source. -/
def isArrayLike : JsVal → Except JsError Bool
  | .undefined => .ok false
  | .null => .error .typeError
  | .array _ => .ok true
  | .buffer _ => .ok true
  | .uint8Array _ _ _ => .ok true
  | _ => .ok false

/-- The function `isObject(something)`; `&&` evaluates `isArrayLike` only
when the `typeof` test holds. -/
def isObject (something : JsVal) : Except JsError Bool :=
  if typeofObject something then (isArrayLike something).map (!·) else .ok false

/-- The own enumerable properties of a value that passed `isObject`. -/
def ownFields : JsVal → Fields
  | .object fields => fields
  | _ => []

/-- The function `bitsToArg(bits)`. -/
def bitsToArg (k : Constants) (bits : JsVal) : JsVal :=
  if !truthy bits then .undefined
  else if strictEq bits (.number (.int 64)) then .string k.ARG_64BIT
  else if strictEq bits (.number (.int 32)) then .string k.ARG_32BIT
  else .undefined

/-- The first step of `getOptions`: splits the argument list into the user
options object and the remaining positional arguments. -/
def splitArgs (R : RegistryCfg) (args : List JsVal) : Except JsError (Fields × List JsVal) := do
  let single ← if args.length = 1 then isObject (args.getD 0 .undefined) else pure false
  if single then
    pure (setProp (ownFields (args.getLastD .undefined)) R.IS_OPTIONS (.bool true), args.dropLast)
  else
    let trailing ← isObject (args.getLastD .undefined)
    if trailing then pure (ownFields (args.getLastD .undefined), args.dropLast)
    else pure ([], args)

/-- The object literal `{lowercase, format, bits, path, name, data}` of
`getOptions`: the three defaults are read from `Registry` when
`includeDefaults` holds and from `{}` otherwise; `path`, `name` and `data`
are the first three positional arguments. -/
def defaultOptions (R : RegistryCfg) (args : List JsVal) (includeDefaults : Bool) : Fields :=
  let path := args.getD 0 .undefined
  let name := args.getD 1 .undefined
  let data := args.getD 2 .undefined
  let lowercase := if includeDefaults then R.lowercase else .undefined
  let format := if includeDefaults then R.format else .undefined
  let bits := if includeDefaults then R.bits else .undefined
  [(lit "lowercase", lowercase), (lit "format", format), (lit "bits", bits),
   (lit "path", path), (lit "name", name), (lit "data", data)]

/-- The step `if (options.path) options.path = sanitizePath(options.path)`. -/
def withSanitizedPath (options : Fields) : Except JsError Fields :=
  if truthy (getProp options (lit "path")) then
    (sanitizePathVal (getProp options (lit "path"))).map (setProp options (lit "path"))
  else pure options

/-- The step `if (options.bits !== undefined) options.bitsArg = bitsToArg(options.bits)`. -/
def withBitsArg (k : Constants) (options : Fields) : Fields :=
  if !strictEq (getProp options (lit "bits")) .undefined then
    setProp options (lit "bitsArg") (bitsToArg k (getProp options (lit "bits")))
  else options

/-- The step `Object.keys(options).forEach(...)` that deletes the properties
whose value is `undefined`: `Object.keys` lists the string keys only, so a
symbol-keyed property is never visited and stays. -/
def dropUndefined (options : Fields) : Fields :=
  options.filter fun kv =>
    match kv.1 with
    | .str _ => !strictEq kv.2 .undefined
    | .sym _ => true

/-- The function `getOptions(args, includeDefaults)`. -/
def getOptions (R : RegistryCfg) (k : Constants) (args : List JsVal) (includeDefaults : Bool) :
    Except JsError Fields := do
  let (userOptions, args) ← splitArgs R args
  let options := assign (assign [] (defaultOptions R args includeDefaults)) userOptions
  let options ← withSanitizedPath options
  pure (dropUndefined (withBitsArg k options))

/-! ## CommandExecutor -/

/-- The function `getErrorLine(stderr)`: the first piece of the trimmed text
split at CRLF (the split of a string by a non-empty separator has a first
piece). -/
def getErrorLine (stderr : JsString) : JsString :=
  (jsSplit (trim stderr) (lit "\r\n")).headD []

/-- What `spawn` resolves to. -/
structure SpawnResult where
  stdout : JsString
  stderr : JsString

/-- The function `_execute(args)`, the executor once the locale state is
set: `ERR_NOT_FOUND` is the module variable, `spawn` the outcome of running
the tool (an error when the process could not be run). The result is the
resolved value or the rejection. -/
def _execute (rt : Runtime) (ERR_NOT_FOUND : JsVal)
    (spawn : List JsVal → Except JsError SpawnResult) (args : List JsVal) :
    Except JsError JsVal := do
  let res ← spawn args
  if res.stderr.length = 0 then pure (.string res.stdout)
  else
    let line := getErrorLine res.stderr
    if strictEq (.string line) ERR_NOT_FOUND then pure .undefined
    else throw (.regError
      (line.drop 7 ++ lit " - Command 'reg " ++ joinItems rt (lit " ") args ++ lit "'"))

/-! ## DeleteEngine

Each function is embedded by the argument list it hands to `execute`. -/

/-- An argument list handed to `execute`. -/
abbrev Command := List JsVal

/-- The function `Registry.deleteKey({path, bits})`. -/
def Registry.deleteKey (options : Fields) : Command :=
  let path := getProp options (lit "path")
  let bits := getProp options (lit "bits")
  [.string (lit "delete"), path, .string (lit "/f")] ++ if truthy bits then [bits] else []

/-- The function `Registry.deleteValue({path, name, bits})`. -/
def Registry.deleteValue (R : RegistryCfg) (options : Fields) : Command :=
  let path := getProp options (lit "path")
  let name := getProp options (lit "name")
  let bits := getProp options (lit "bits")
  let name := if strictEq name .undefined then .string R.DEFAULT else name
  let execArgs :=
    if strictEq name (.string R.DEFAULT) then
      [.string (lit "delete"), path, .string (lit "/ve"), .string (lit "/f")]
    else [.string (lit "delete"), path, .string (lit "/v"), name, .string (lit "/f")]
  execArgs ++ if truthy bits then [bits] else []

/-- The function `Registry.clearValues({path, bits})`. -/
def Registry.clearValues (options : Fields) : Command :=
  let path := getProp options (lit "path")
  let bits := getProp options (lit "bits")
  [.string (lit "delete"), path, .string (lit "/va"), .string (lit "/f")] ++
    if truthy bits then [bits] else []

/-- The function `Registry.delete(...args)`; `getOptions` is called with its
default `includeDefaults = true`. -/
def Registry.delete (R : RegistryCfg) (k : Constants) (args : List JsVal) :
    Except JsError Command := do
  let options ← getOptions R k args true
  if !strictEq (getProp options (lit "name")) .undefined then
    pure (Registry.deleteValue R options)
  else pure (Registry.deleteKey options)

/-- The function `Registry.clearKeys(options)` after `getKeys` has resolved
to `keys`: the commands of the calls `Registry.delete(path\key, bits)`, in
the order of `keys`; an error when one of the calls throws. -/
def Registry.clearKeys (rt : Runtime) (R : RegistryCfg) (k : Constants) (options : Fields) :
    List JsVal → Except JsError (List Command)
  | [] => pure []
  | key :: rest => do
    let cmd ← Registry.delete R k
      [.string (jsToString rt (getProp options (lit "path")) ++ lit "\\" ++ jsToString rt key),
       getProp options (lit "bits")]
    let cmds ← Registry.clearKeys rt R k options rest
    pure (cmd :: cmds)

/-! ## Type names -/

/-- The function `sanitizeType(type)`: `undefined` is returned as it is; a
string is upper-cased and gets `REG_` prepended unless it already starts with
it; any other value has no `toUpperCase` and throws. -/
def sanitizeType (rt : Runtime) : JsVal → Except JsError JsVal
  | .undefined => .ok .undefined
  | .string type =>
    let type := rt.toUpperCase type
    .ok (.string (if !startsWith type (lit "REG_") then lit "REG_" ++ type else type))
  | _ => .error .typeError

/-- Upper-casing of the letters `a` to `z`, every other code unit unchanged:
what `toUpperCase` does on ASCII text. -/
def asciiUpper (s : JsString) : JsString :=
  s.map fun c => if 97 ≤ c ∧ c ≤ 122 then c - 32 else c

/-! ## LocaleBootstrap -/

/-- Worker of `indexOf`: the first position, counted from `i` at the head of
the list, where `needle` begins. -/
def findFrom (needle : JsString) : JsString → Nat → Option Nat
  | [], i => if needle.isEmpty then some i else none
  | c :: cs, i => if startsWith (c :: cs) needle then some i else findFrom needle cs (i + 1)

/-- The method `String.prototype.indexOf(needle, position)`: the search starts
at `position` clamped to the string, and `-1` means not found. -/
def indexOf (s needle : JsString) (position : Int) : Int :=
  let start := min position.toNat s.length
  match findFrom needle (s.drop start) start with
  | some i => i
  | none => -1

/-- The method `String.prototype.slice(start, stop)`: a negative index counts
from the end, and both are clamped to the string. -/
def slice (s : JsString) (start stop : Int) : JsString :=
  let len : Int := s.length
  let lo := if start < 0 then max (len + start) 0 else min start len
  let hi := if stop < 0 then max (len + stop) 0 else min stop len
  (s.drop lo.toNat).take (hi - lo).toNat

/-- The function `setDefaultValues(stdout)`; the result is the pair of the
values assigned to `VALUE_DEFAULT` and `VALUE_NOT_SET`. -/
def setDefaultValues (stdout : JsString) : JsString × JsString :=
  let iNextStr := indexOf stdout (lit "\r\n") 1
  let iNameBracketOpen := indexOf stdout (lit "(") iNextStr
  let iNameBracketClose := indexOf stdout (lit ")") iNameBracketOpen
  let iValBracketOpen := indexOf stdout (lit "(") iNameBracketClose
  let iValBracketClose := indexOf stdout (lit ")") iValBracketOpen
  (slice stdout iNameBracketOpen (iNameBracketClose + 1),
   slice stdout iValBracketOpen (iValBracketClose + 1))

/-- State of one of the two module-level promises `errMessagePromise` and
`defaultValuesPromise`: not yet assigned, assigned and pending, or settled. -/
inductive Probe where
  | unset
  | pending
  | fulfilled
  | rejected
deriving DecidableEq, Repr

/-- What happens during a run of the executor, in order: the three places
that call `spawn` (the two probes of the temporary `execute`, and `_execute`
for a caller's arguments) and the settling of the two probe promises. -/
inductive Event where
  | probeNotFound
  | probeDefault
  | notFoundSettled (ok : Bool)
  | defaultSettled (ok : Bool)
  | command (args : List JsVal)

/-- Whether the event is the spawn of the not-found probe. -/
def Event.isProbeNotFound : Event → Bool
  | .probeNotFound => true
  | _ => false

/-- Whether the event is the spawn of the default-value probe. -/
def Event.isProbeDefault : Event → Bool
  | .probeDefault => true
  | _ => false

/-- The module state the executor works on: the two promises, whether the
exported `execute` has been replaced by `_execute`, the callers suspended at
`await Promise.all(...)` with their arguments, and the events so far. -/
structure ExecState where
  errMessagePromise : Probe
  defaultValuesPromise : Probe
  replaced : Bool
  waiting : List (List JsVal)
  trace : List Event

/-- The module state right after loading. -/
def ExecState.initial : ExecState :=
  ⟨.unset, .unset, false, [], []⟩

/-- What the event loop can do next: a caller invokes `execute(args)`, one of
the probe promises settles (fulfilled when `ok`), or the `i`-th suspended
caller continues after its `await`. -/
inductive Action where
  | call (args : List JsVal)
  | settleNotFound (ok : Bool)
  | settleDefault (ok : Bool)
  | resume (i : Nat)

/-- The synchronous part of the temporary `execute(args)`, up to its `await`:
each probe is spawned only if its promise variable is still unassigned, then
the caller is suspended. -/
def callTemporary (s : ExecState) (args : List JsVal) : ExecState :=
  let s := if s.errMessagePromise = .unset then
      { s with errMessagePromise := .pending, trace := s.trace ++ [.probeNotFound] }
    else s
  let s := if s.defaultValuesPromise = .unset then
      { s with defaultValuesPromise := .pending, trace := s.trace ++ [.probeDefault] }
    else s
  { s with waiting := s.waiting ++ [args] }

/-- One step of the executor; `none` when the action cannot happen in the
state. A call reaches `_execute` directly once `execute` has been replaced,
and spawns the command. A suspended caller continues when `Promise.all` has
settled: if a probe was rejected the caller is rejected and spawns nothing,
if both are fulfilled it replaces `execute` and spawns its command. -/
def step (s : ExecState) : Action → Option ExecState
  | .call args =>
    if s.replaced then some { s with trace := s.trace ++ [.command args] }
    else some (callTemporary s args)
  | .settleNotFound ok =>
    if s.errMessagePromise = .pending then
      some { s with errMessagePromise := if ok then .fulfilled else .rejected,
                    trace := s.trace ++ [.notFoundSettled ok] }
    else none
  | .settleDefault ok =>
    if s.defaultValuesPromise = .pending then
      some { s with defaultValuesPromise := if ok then .fulfilled else .rejected,
                    trace := s.trace ++ [.defaultSettled ok] }
    else none
  | .resume i =>
    match s.waiting.get? i with
    | none => none
    | some args =>
      if s.errMessagePromise = .rejected ∨ s.defaultValuesPromise = .rejected then
        some { s with waiting := s.waiting.eraseIdx i }
      else if s.errMessagePromise = .fulfilled ∧ s.defaultValuesPromise = .fulfilled then
        some { s with waiting := s.waiting.eraseIdx i, replaced := true,
                      trace := s.trace ++ [.command args] }
      else none

/-- A run: the actions applied in order, `none` if one of them cannot happen. -/
def run (s : ExecState) : List Action → Option ExecState
  | [] => some s
  | a :: rest => (step s a).bind fun s' => run s' rest

/-- Every command in the trace comes after the events that report both
probes fulfilled. -/
def Guarded (tr : List Event) : Prop :=
  ∀ i args, tr[i]? = some (.command args) →
    Event.notFoundSettled true ∈ tr.take i ∧ Event.defaultSettled true ∈ tr.take i

/-- The invariant of the executor state: a probe whose promise variable is
unassigned has not been spawned, each probe has been spawned at most once, a
fulfilled promise has its event in the trace, `execute` is replaced only when
both promises are fulfilled, and the trace is guarded. -/
structure ExecInv (s : ExecState) : Prop where
  nf_unset : s.errMessagePromise = .unset →
    (s.trace.filter Event.isProbeNotFound).length = 0
  nf_once : (s.trace.filter Event.isProbeNotFound).length ≤ 1
  df_unset : s.defaultValuesPromise = .unset →
    (s.trace.filter Event.isProbeDefault).length = 0
  df_once : (s.trace.filter Event.isProbeDefault).length ≤ 1
  nf_done : s.errMessagePromise = .fulfilled → Event.notFoundSettled true ∈ s.trace
  df_done : s.defaultValuesPromise = .fulfilled → Event.defaultSettled true ∈ s.trace
  replaced_done : s.replaced = true →
    s.errMessagePromise = .fulfilled ∧ s.defaultValuesPromise = .fulfilled
  guarded : Guarded s.trace

/-- A constants table with the usual `REG_*` names and `/reg:` flags. -/
def regConstants : Constants where
  SZ := lit "REG_SZ"
  MULTI_SZ := lit "REG_MULTI_SZ"
  EXPAND_SZ := lit "REG_EXPAND_SZ"
  DWORD := lit "REG_DWORD"
  QWORD := lit "REG_QWORD"
  BINARY := lit "REG_BINARY"
  NONE := lit "REG_NONE"
  ARG_64BIT := lit "/reg:64"
  ARG_32BIT := lit "/reg:32"
  types_distinct := by decide

/-- A sample of Registry statics: no default view, the empty string as the
name of the unnamed value. -/
def sampleRegistry : RegistryCfg where
  lowercase := .bool true
  format := .string (lit "simple")
  bits := .undefined
  DEFAULT := []
  IS_OPTIONS := lit "@@isOptions"
  is_options_fresh := by decide

/-- A sample runtime: ASCII upper-casing, the string length limit of a 64-bit
V8 (`2^29 - 24`), the other abstract primitives trivial; used to evaluate
examples that do not depend on them. -/
def stubRuntime : Runtime where
  utf8Decode := fun bs => bs.map Fin.val
  utf8Encode := fun _ => []
  expNotation := fun _ => []
  hasBigInt := true
  toBigInt := fun _ => .error .typeError
  bufferFromObject := fun _ => .error .typeError
  toUpperCase := asciiUpper
  maxStringLength := 536870888

/-! ## Basic facts -/

@[simp] theorem strictEq_undefined_iff (v : JsVal) : strictEq v .undefined = true ↔ v = .undefined := by
  cases v <;> simp [strictEq]

@[simp] theorem strictEq_undefined_false_iff (v : JsVal) :
    strictEq v .undefined = false ↔ v ≠ .undefined := by
  cases v <;> simp [strictEq]

@[simp] theorem strictEq_string_iff (a b : JsString) :
    strictEq (.string a) (.string b) = true ↔ a = b := by
  simp [strictEq]

@[simp] theorem strictEq_string_false_iff (a b : JsString) :
    strictEq (.string a) (.string b) = false ↔ a ≠ b := by
  simp [strictEq]

@[simp] theorem strictEq_undefined_string (a : JsString) :
    strictEq .undefined (.string a) = false := rfl

theorem Constants.distinct (k : Constants) :
    k.BINARY ≠ k.DWORD ∧ k.BINARY ≠ k.QWORD ∧ k.BINARY ≠ k.MULTI_SZ ∧ k.BINARY ≠ k.SZ ∧
    k.DWORD ≠ k.QWORD ∧ k.DWORD ≠ k.MULTI_SZ ∧ k.DWORD ≠ k.SZ ∧
    k.QWORD ≠ k.MULTI_SZ ∧ k.QWORD ≠ k.SZ ∧ k.MULTI_SZ ≠ k.SZ := by
  have h := k.types_distinct
  simp only [List.nodup_cons, List.mem_cons, List.mem_singleton, not_or, List.not_mem_nil,
    not_false_eq_true, List.nodup_nil, and_true] at h
  obtain ⟨⟨h1, h2, h3, h4, h5, h6⟩, ⟨g1, g2, g3, g4, g5⟩, ⟨e1, e2, e3, e4⟩, ⟨d1, d2, d3⟩,
    ⟨q1, q2⟩, b1⟩ := h
  exact ⟨Ne.symm d2, Ne.symm q1, Ne.symm g4, Ne.symm h5, d1, Ne.symm g2, Ne.symm h3,
    Ne.symm g3, Ne.symm h4, Ne.symm h1⟩

theorem digitVal_hexDigit (d : Nat) (h : d < 16) : digitVal 16 (hexDigit d) = some d := by
  interval_cases d <;> rfl

theorem hexDecode_hexEncode (bs : List Byte) : hexDecode (hexEncode bs) = bs := by
  induction bs with
  | nil => rfl
  | cons b bs ih =>
    have h1 : b.val / 16 < 16 := by omega
    have h2 : b.val % 16 < 16 := by omega
    simp only [hexEncode, hexDecode, digitVal_hexDigit _ h1, digitVal_hexDigit _ h2, ih]
    congr 1
    apply Fin.ext
    show (16 * (b.val / 16) + b.val % 16) % 256 = b.val
    omega

/-- Decoding the encoding of a Buffer or ArrayBuffer yields its bytes, for an unset or BINARY type. -/
theorem stringifyBuffer_decode (rt : Runtime) (k : Constants) (bytes : List Byte) (type : JsVal)
    (h : type = .undefined ∨ type = .string k.BINARY) :
    parseValueData rt k (stringifyBuffer rt k bytes type).1 (stringifyBuffer rt k bytes type).2
      = .ok (.buffer bytes, .string k.BINARY) := by
  obtain ⟨h1, h2, h3, -⟩ := k.distinct
  rcases h with rfl | rfl <;>
    simp [stringifyBuffer, parseValueData, bufferFromHex, hexDecode_hexEncode, h1, h2, h3,
      Except.map, bind, Except.bind, pure, Except.pure]

theorem decDigits_lt (fuel n : Nat) : ∀ d ∈ decDigits fuel n, d < 10 := by
  induction fuel generalizing n with
  | zero => simp [decDigits]
  | succ fuel ih =>
    intro d hd
    unfold decDigits at hd
    split at hd
    · simp at hd; omega
    · rcases List.mem_append.mp hd with h | h
      · exact ih _ d h
      · simp at h; omega

theorem decDigits_ne_nil (fuel n : Nat) : decDigits (fuel + 1) n ≠ [] := by
  unfold decDigits
  split <;> simp

theorem decDigits_foldl (fuel n : Nat) (h : n < fuel) :
    (decDigits fuel n).foldl (fun a d => 10 * a + d) 0 = n := by
  induction fuel generalizing n with
  | zero => omega
  | succ fuel ih =>
    unfold decDigits
    split
    · simp
    · rw [List.foldl_append, ih (n / 10) (by omega)]
      simp
      omega

theorem isWhiteSpace_digit (d : Nat) (h : d < 10) : isWhiteSpace (d + 48) = false := by
  interval_cases d <;> rfl

theorem digitVal_digit (d : Nat) (h : d < 10) : digitVal 10 (d + 48) = some d := by
  interval_cases d <;> rfl

theorem takeWhile_digits (ds : List Nat) (h : ∀ d ∈ ds, d < 10) :
    (ds.map (· + 48)).takeWhile (fun c => (digitVal 10 c).isSome) = ds.map (· + 48) := by
  induction ds with
  | nil => rfl
  | cons d ds ih =>
    simp only [List.map_cons, List.takeWhile_cons, digitVal_digit d (h d (by simp)),
      Option.isSome_some, if_true]
    rw [ih (fun e he => h e (by simp [he]))]

theorem filterMap_digits (ds : List Nat) (h : ∀ d ∈ ds, d < 10) :
    (ds.map (· + 48)).filterMap (digitVal 10) = ds := by
  induction ds with
  | nil => rfl
  | cons d ds ih =>
    simp only [List.map_cons, List.filterMap_cons, digitVal_digit d (h d (by simp))]
    rw [ih (fun e he => h e (by simp [he]))]

theorem startsWith_digits_hex (ds : List Nat) (h : ∀ d ∈ ds, d < 10) (c : Nat) (hc : 58 ≤ c) :
    startsWith (ds.map (· + 48)) [48, c] = false := by
  match ds, h with
  | [], _ => rfl
  | [d], _ => simp [startsWith]
  | d :: e :: ds, h =>
    have he : e < 10 := h e (by simp)
    simp only [List.map_cons, startsWith, Bool.and_true, Bool.and_eq_false_imp, beq_iff_eq]
    intro _
    simp
    omega

theorem parseIntString_digits (ds : List Nat) (h : ∀ d ∈ ds, d < 10) (hne : ds ≠ []) :
    parseIntString (ds.map (· + 48)) = .int (ds.foldl (fun a d => 10 * a + d) 0 : Nat) := by
  obtain ⟨d, ds', rfl⟩ := List.exists_cons_of_ne_nil hne
  have hd : d < 10 := h d (by simp)
  have hw : ((d :: ds').map (· + 48)).dropWhile isWhiteSpace = (d :: ds').map (· + 48) := by
    simp [List.dropWhile_cons, isWhiteSpace_digit d hd]
  have h45 : startsWith ((d :: ds').map (· + 48)) [45] = false := by
    simp [startsWith]
  have h43 : startsWith ((d :: ds').map (· + 48)) [43] = false := by
    simp [startsWith]
  have hx := startsWith_digits_hex (d :: ds') h 120 (by omega)
  have hX := startsWith_digits_hex (d :: ds') h 88 (by omega)
  unfold parseIntString
  simp only [hw, h45, h43, hx, hX, Bool.or_self, Bool.false_eq_true, if_false,
    takeWhile_digits _ h, filterMap_digits _ h]
  simp

theorem parseIntString_neg_digits (ds : List Nat) (h : ∀ d ∈ ds, d < 10) (hne : ds ≠ []) :
    parseIntString (45 :: ds.map (· + 48)) =
      .int (-((ds.foldl (fun a d => 10 * a + d) 0 : Nat) : Int)) := by
  have hx := startsWith_digits_hex ds h 120 (by omega)
  have hX := startsWith_digits_hex ds h 88 (by omega)
  have hw : (45 :: ds.map (· + 48)).dropWhile isWhiteSpace = 45 :: ds.map (· + 48) := by
    rw [List.dropWhile_cons]; rfl
  have h45 : startsWith (45 :: ds.map (· + 48)) [45] = true := by simp [startsWith]
  unfold parseIntString
  simp only [hw, h45, Bool.true_or, if_true, List.drop_one, List.tail_cons, hx, hX,
    Bool.or_self, Bool.false_eq_true, if_false, takeWhile_digits _ h, filterMap_digits _ h]
  simp [hne]

theorem parseIntString_intToDecimal (i : Int) : parseIntString (intToDecimal i) = .int i := by
  cases i with
  | ofNat n =>
    simp only [intToDecimal, natToDecimal]
    rw [parseIntString_digits _ (decDigits_lt _ _) (decDigits_ne_nil _ _),
      decDigits_foldl _ _ (Nat.lt_succ_self n)]
    rfl
  | negSucc n =>
    simp only [intToDecimal, natToDecimal]
    rw [parseIntString_neg_digits _ (decDigits_lt _ _) (decDigits_ne_nil _ _),
      decDigits_foldl _ _ (Nat.lt_succ_self _)]
    rfl

/-! ## ValueCodec round trips -/

/-- For a Buffer, an ArrayBuffer, or a Uint8Array whose view is its whole
underlying buffer, decoding the encoding returns the bytes as a Buffer with
type BINARY, for a BINARY or an unset type. -/
theorem decodeEncoded_bytes (rt : Runtime) (k : Constants) (data type : JsVal)
    (hd : (∃ bs, data = .buffer bs) ∨ (∃ bs, data = .arrayBuffer bs) ∨
      (∃ bs, data = .uint8Array bs 0 bs.length))
    (ht : type = .undefined ∨ type = .string k.BINARY) :
    decodeEncoded rt k data type = .ok (.buffer (bytesOf data), .string k.BINARY) := by
  rcases hd with ⟨bs, rfl⟩ | ⟨bs, rfl⟩ | ⟨bs, rfl⟩
  · exact stringifyBuffer_decode rt k bs type ht
  · exact stringifyBuffer_decode rt k bs type ht
  · have : bytesOf (.uint8Array bs 0 bs.length) = bs := by simp [bytesOf, viewBytes]
    rw [this]
    exact stringifyBuffer_decode rt k bs type ht

/-- C1, at the failing input: a Uint8Array viewing only the middle byte of
the three-byte buffer `01 02 03` denotes the single byte `02`, yet encoding
and decoding it (type BINARY or unset) returns all three bytes of the
underlying buffer. -/
theorem uint8Array_partial_view_decodes_whole_buffer (rt : Runtime) (k : Constants) :
    bytesOf (.uint8Array [1, 2, 3] 1 1) = [2] ∧
    decodeEncoded rt k (.uint8Array [1, 2, 3] 1 1) (.string k.BINARY)
      = .ok (.buffer [1, 2, 3], .string k.BINARY) ∧
    decodeEncoded rt k (.uint8Array [1, 2, 3] 1 1) .undefined
      = .ok (.buffer [1, 2, 3], .string k.BINARY) :=
  ⟨rfl, stringifyBuffer_decode rt k _ _ (Or.inr rfl), stringifyBuffer_decode rt k _ _ (Or.inl rfl)⟩

theorem joinItems_strings (rt : Runtime) (sep : JsString) (s : List JsString) :
    joinItems rt sep (s.map .string) = joinStrings sep s := by
  induction s with
  | nil => simp [joinItems, joinStrings]
  | cons x rest ih =>
    cases rest with
    | nil => simp [joinItems, joinStrings, jsToString]
    | cons y ys =>
      simp only [List.map_cons] at ih ⊢
      rw [joinItems, joinStrings, ih]
      · simp [jsToString]
      · simp
      · simp

theorem lit_backslash_zero : lit "\\0" = [92, 48] := by decide

theorem splitGo_piece (p : JsString) (hp : ¬ [92, 48] <:+: p) (rest : JsString)
    (hrest : rest = [] ∨ ∃ r, rest = 92 :: 48 :: r) (cur : JsString) :
    splitGo [92, 48] (p ++ rest) 0 cur = splitGo [92, 48] rest 0 (cur ++ p) := by
  induction p generalizing cur with
  | nil => simp
  | cons c cs ih =>
    have hcs : ¬ [92, 48] <:+: cs := fun h => hp (List.infix_cons h)
    have hstart : startsWith (c :: (cs ++ rest)) [92, 48] = false := by
      cases cs with
      | nil =>
        rcases hrest with rfl | ⟨r, rfl⟩ <;> simp [startsWith]
      | cons d ds =>
        simp only [List.cons_append, startsWith, Bool.and_true, Bool.and_eq_false_imp, beq_iff_eq]
        intro hc
        simp only [beq_eq_false_iff_ne, ne_eq]
        intro hd'
        exact hp ⟨[], ds, by simp [hc, hd']⟩
    rw [List.cons_append, splitGo, if_neg (by simp [hstart]), ih hcs]
    simp

theorem splitGo_separator (r cur : JsString) :
    splitGo [92, 48] (92 :: 48 :: r) 0 cur = cur :: splitGo [92, 48] r 0 [] := by
  simp [splitGo, startsWith]

theorem jsSplit_joinStrings (parts : List JsString) (hne : parts ≠ [])
    (h : ∀ e ∈ parts, ¬ [92, 48] <:+: e) :
    jsSplit (joinStrings [92, 48] parts) [92, 48] = parts := by
  show splitGo [92, 48] (joinStrings [92, 48] parts) 0 [] = parts
  induction parts with
  | nil => exact absurd rfl hne
  | cons x rest ih =>
    cases rest with
    | nil =>
      have := splitGo_piece x (h x (by simp)) [] (Or.inl rfl) []
      simpa [joinStrings, splitGo] using this
    | cons y ys =>
      have hx := splitGo_piece x (h x (by simp)) (92 :: 48 :: joinStrings [92, 48] (y :: ys))
        (Or.inr ⟨_, rfl⟩) []
      have ih' := ih (by simp) (fun e he => h e (List.mem_cons_of_mem _ he))
      simp only [joinStrings, List.cons_append, List.nil_append] at hx ih' ⊢
      rw [hx, splitGo_separator, ih']

/-- C2, counterexample: the empty sequence encodes to the empty string, and
decoding that returns a sequence holding one empty string, not the empty
sequence. -/
theorem multiString_empty_sequence_not_restored :
    decodeEncoded stubRuntime regConstants (.array []) .undefined
      = .ok (.array [.string []], .string regConstants.MULTI_SZ) ∧
    decodeEncoded stubRuntime regConstants (.array []) .undefined
      ≠ .ok (.array [], .string regConstants.MULTI_SZ) := by
  have h : decodeEncoded stubRuntime regConstants (.array []) .undefined
      = .ok (.array [.string []], .string regConstants.MULTI_SZ) := rfl
  exact ⟨h, by rw [h]; simp⟩

/-- C2, amended: for every non-empty sequence of strings none of which
contains the two code units backslash, zero, decoding the encoding made with
the type unset returns the same sequence with type MULTI_SZ. -/
theorem multiString_roundtrip_nonempty (rt : Runtime) (k : Constants) (s : List JsString)
    (hne : s ≠ []) (h : ∀ e ∈ s, ¬ lit "\\0" <:+: e) :
    decodeEncoded rt k (.array (s.map .string)) .undefined
      = .ok (.array (s.map .string), .string k.MULTI_SZ) := by
  obtain ⟨-, -, h3, -, -, h6, -, h8, -, -⟩ := k.distinct
  rw [lit_backslash_zero] at h
  simp [decodeEncoded, inferAndStringifyData, parseValueData, splitMulti, joinItems_strings,
    lit_backslash_zero, jsSplit_joinStrings s hne h, Ne.symm h3, Ne.symm h6, Ne.symm h8,
    bind, Except.bind, pure, Except.pure]

/-- The multi-string round trip at the sequence `a`, empty string, `b\\`, `0c`
(a piece ending in a backslash and a piece beginning with a zero meet a
separator). -/
theorem multiString_roundtrip_nonempty_witness :
    decodeEncoded stubRuntime regConstants
        (.array ([lit "a", [], lit "b\\", lit "0c"].map .string)) .undefined
      = .ok (.array ([lit "a", [], lit "b\\", lit "0c"].map .string), .string regConstants.MULTI_SZ) :=
  multiString_roundtrip_nonempty stubRuntime regConstants [lit "a", [], lit "b\\", lit "0c"]
    (by simp) (by decide)

/-- C3: for every integer in the 32-bit range (signed or unsigned), encoding
with the type unset leaves the number as it is and resolves the type to
DWORD, and decoding that pair returns the same number. -/
theorem dword_roundtrip (rt : Runtime) (k : Constants) (n : Int)
    (hlo : -2 ^ 31 ≤ n) (hhi : n < 2 ^ 32) :
    inferAndStringifyData rt k (.number (.int n)) .undefined
      = (.number (.int n), .string k.DWORD) ∧
    decodeEncoded rt k (.number (.int n)) .undefined
      = .ok (.number (.int n), .string k.DWORD) := by
  obtain ⟨h1, -, -, -, h5, h6, -, -, -, -⟩ := k.distinct
  have habs : n.natAbs < 1000000000000000000000 := by omega
  refine ⟨by simp [inferAndStringifyData], ?_⟩
  simp [decodeEncoded, inferAndStringifyData, parseValueData, parseInt, jsToString,
    numberToString, habs, parseIntString_intToDecimal, Ne.symm h1, h5, h6,
    bind, Except.bind, pure, Except.pure]

/-- The DWORD round trip at `-7`. -/
theorem dword_roundtrip_witness :
    inferAndStringifyData stubRuntime regConstants (.number (.int (-7))) .undefined
      = (.number (.int (-7)), .string regConstants.DWORD) ∧
    decodeEncoded stubRuntime regConstants (.number (.int (-7))) .undefined
      = .ok (.number (.int (-7)), .string regConstants.DWORD) :=
  dword_roundtrip stubRuntime regConstants (-7) (by decide) (by decide)

/-! ## Records -/

theorem lookup_isSome_iff (r : Fields) (key : Key) :
    (lookup r key).isSome = true ↔ key ∈ r.map Prod.fst := by
  induction r with
  | nil => simp [lookup]
  | cons kv rest ih =>
    obtain ⟨k, v⟩ := kv
    simp only [lookup, List.map_cons, List.mem_cons]
    cases h : lookup rest key with
    | some w =>
      have := ih.mp (by simp [h])
      simp [this]
    | none =>
      have hn : key ∉ rest.map Prod.fst := fun hm => by simpa [h] using ih.mpr hm
      by_cases hk : k = key
      · simp [hk]
      · simp [hk, hn, Ne.symm hk]

theorem lookup_eq_none_iff (r : Fields) (key : Key) :
    lookup r key = none ↔ key ∉ r.map Prod.fst := by
  rw [← lookup_isSome_iff]
  cases lookup r key <;> simp

theorem lookup_map_update (r : Fields) (key key' : Key) (v : JsVal) :
    lookup (r.map fun kv => if kv.1 = key then (kv.1, v) else kv) key' =
      (lookup r key').map fun w => if key' = key then v else w := by
  induction r with
  | nil => simp [lookup]
  | cons kv rest ih =>
    obtain ⟨k, w⟩ := kv
    rw [List.map_cons]
    by_cases hk : k = key
    · rw [if_pos hk]
      simp only [lookup, ih]
      cases lookup rest key' with
      | some u => simp
      | none =>
        by_cases hkk : k = key'
        · have : key' = key := hkk ▸ hk
          simp [hkk, this]
        · simp [hkk]
    · rw [if_neg hk]
      simp only [lookup, ih]
      cases lookup rest key' with
      | some u => simp
      | none =>
        by_cases hkk : k = key'
        · have : ¬ key' = key := fun h => hk (hkk.trans h)
          simp [hkk, this]
        · simp [hkk]

theorem lookup_append_singleton (r : Fields) (key key' : Key) (v : JsVal) :
    lookup (r ++ [(key, v)]) key' = if key = key' then some v else lookup r key' := by
  induction r with
  | nil => simp [lookup]
  | cons kv rest ih =>
    obtain ⟨k, w⟩ := kv
    rw [List.cons_append, lookup, ih]
    by_cases hk : key = key'
    · simp [hk]
    · simp [hk, lookup]

theorem lookup_setProp (r : Fields) (key key' : Key) (v : JsVal) :
    lookup (setProp r key v) key' = if key' = key then some v else lookup r key' := by
  unfold setProp
  split
  · rename_i h
    rw [lookup_map_update]
    by_cases hk : key' = key
    · subst hk
      cases hl : lookup r key' with
      | some u => simp
      | none => simp [hl] at h
    · cases lookup r key' <;> simp [hk]
  · rw [lookup_append_singleton]
    by_cases hk : key' = key
    · simp [hk]
    · simp [hk, Ne.symm hk]

theorem getProp_setProp (r : Fields) (key key' : Key) (v : JsVal) :
    getProp (setProp r key v) key' = if key' = key then v else getProp r key' := by
  unfold getProp
  rw [lookup_setProp]
  split <;> rfl

theorem lookup_assign (t s : Fields) (key : Key) :
    lookup (assign t s) key = (lookup s key).or (lookup t key) := by
  unfold assign
  induction s generalizing t with
  | nil => simp [lookup]
  | cons kv rest ih =>
    obtain ⟨k, v⟩ := kv
    simp only [List.foldl_cons, ih, lookup, lookup_setProp]
    cases lookup rest key with
    | some w => simp
    | none =>
      by_cases hk : k = key
      · simp [hk]
      · simp [hk, Ne.symm hk]

theorem keys_setProp (r : Fields) (key : Key) (v : JsVal) :
    (setProp r key v).map Prod.fst =
      if key ∈ r.map Prod.fst then r.map Prod.fst else r.map Prod.fst ++ [key] := by
  unfold setProp
  by_cases h : (lookup r key).isSome = true
  · have hm := (lookup_isSome_iff r key).mp h
    rw [if_pos h, if_pos hm, List.map_map]
    apply List.map_congr_left
    intro kv _
    simp only [Function.comp]
    split <;> rfl
  · have hm : key ∉ r.map Prod.fst := fun hm => h ((lookup_isSome_iff r key).mpr hm)
    rw [if_neg h, if_neg hm]
    simp

theorem nodup_setProp (r : Fields) (key : Key) (v : JsVal)
    (h : (r.map Prod.fst).Nodup) : ((setProp r key v).map Prod.fst).Nodup := by
  rw [keys_setProp]
  split
  · exact h
  · rename_i hk
    rw [List.nodup_append]
    refine ⟨h, by simp, ?_⟩
    intro a ha hb
    simp at hb
    exact hk (hb ▸ ha)

theorem nodup_assign (t s : Fields) (h : (t.map Prod.fst).Nodup) :
    ((assign t s).map Prod.fst).Nodup := by
  unfold assign
  induction s generalizing t with
  | nil => exact h
  | cons kv rest ih => exact ih _ (nodup_setProp t kv.1 kv.2 h)

theorem lookup_filter_of_nodup (r : Fields) (q : Key × JsVal → Bool) (key : Key)
    (h : (r.map Prod.fst).Nodup) :
    lookup (r.filter q) key = (lookup r key).filter fun v => q (key, v) := by
  induction r with
  | nil => simp [lookup]
  | cons kv rest ih =>
    obtain ⟨k, v⟩ := kv
    simp only [List.map_cons, List.nodup_cons] at h
    have ih' := ih h.2
    by_cases hk : k = key
    · subst hk
      have hnone := (lookup_eq_none_iff rest k).mpr h.1
      rw [hnone] at ih'
      by_cases hp : q (k, v) = true
      · simp [List.filter_cons, hp, lookup, ih', hnone, Option.filter]
      · simp [List.filter_cons, hp, lookup, ih', hnone, Option.filter]
    · by_cases hp : q (k, v) = true
      · simp [List.filter_cons, hp, lookup, ih', hk]
      · simp [List.filter_cons, hp, lookup, ih', hk]

/-! ## CommandExecutor -/

/-- C4, counterexample: with the not-found message `ERROR: nf`, a tool that
writes `Access is denied.` to stderr makes `_execute` fail with the message
`is denied. - Command 'reg query'`: the first seven code units of the line
are cut off although the line does not begin with `ERROR: `, so the message
is not the line followed by the command. -/
theorem execute_cuts_line_without_error_prefix :
    getErrorLine (lit "Access is denied.\r\n") = lit "Access is denied." ∧
    startsWith (lit "Access is denied.") (lit "ERROR: ") = false ∧
    _execute stubRuntime (.string (lit "ERROR: nf"))
        (fun _ => .ok ⟨[], lit "Access is denied.\r\n"⟩) [.string (lit "query")]
      = .error (.regError (lit "is denied. - Command 'reg query'")) ∧
    lit "is denied. - Command 'reg query'" ≠ lit "Access is denied. - Command 'reg query'" :=
  ⟨by decide, by decide, rfl, by decide⟩

/-- C4, amended: for every args, stdout and stderr, with the not-found
message `nf` set, `_execute(args)` returns stdout verbatim if stderr is empty;
otherwise returns `undefined` if the first CRLF-delimited line of the trimmed
stderr equals `nf`; otherwise fails with an execution error whose message is
that line without its first seven code units, followed by ` - Command 'reg `,
the args joined by single spaces, and a closing quote. When the line begins
with `ERROR: ` the seven code units cut off are exactly that marker. -/
theorem execute_outcome (rt : Runtime) (nf : JsString) (args : List JsVal)
    (stdout stderr : JsString) :
    (stderr = [] →
      _execute rt (.string nf) (fun _ => .ok ⟨stdout, stderr⟩) args = .ok (.string stdout)) ∧
    (stderr ≠ [] → getErrorLine stderr = nf →
      _execute rt (.string nf) (fun _ => .ok ⟨stdout, stderr⟩) args = .ok .undefined) ∧
    (stderr ≠ [] → getErrorLine stderr ≠ nf →
      _execute rt (.string nf) (fun _ => .ok ⟨stdout, stderr⟩) args =
        .error (.regError ((getErrorLine stderr).drop 7 ++ lit " - Command 'reg " ++
          joinItems rt (lit " ") args ++ lit "'"))) ∧
    (∀ m, getErrorLine stderr = lit "ERROR: " ++ m → (getErrorLine stderr).drop 7 = m) := by
  refine ⟨?_, ?_, ?_, ?_⟩
  · rintro rfl
    rfl
  · intro hne hline
    have hlen : ¬ stderr.length = 0 := by simpa using hne
    simp [_execute, bind, Except.bind, pure, Except.pure, hlen, hline]
  · intro hne hline
    have hlen : ¬ stderr.length = 0 := by simpa using hne
    simp [_execute, bind, Except.bind, pure, Except.pure, hlen, hline, throw, throwThe,
      MonadExceptOf.throw, Except.instMonad]
  · intro m hm
    rw [hm]
    rfl

/-- The failure case of `_execute` at a line that begins with `ERROR: `. -/
theorem execute_outcome_witness :
    _execute stubRuntime (.string (lit "ERROR: nf"))
        (fun _ => .ok ⟨[], lit "ERROR: Access is denied.\r\n"⟩) [.string (lit "query")] =
      .error (.regError ((getErrorLine (lit "ERROR: Access is denied.\r\n")).drop 7 ++
        lit " - Command 'reg " ++ joinItems stubRuntime (lit " ") [.string (lit "query")] ++
        lit "'")) :=
  (execute_outcome stubRuntime (lit "ERROR: nf") [.string (lit "query")] []
    (lit "ERROR: Access is denied.\r\n")).2.2.1 (by decide) (by decide)

/-! ## OptionResolver -/

theorem getOptions_of_splitArgs (R : RegistryCfg) (k : Constants) (args : List JsVal)
    (inc : Bool) (user : Fields) (pos : List JsVal) (hs : splitArgs R args = .ok (user, pos)) :
    getOptions R k args inc =
      (withSanitizedPath (assign (assign [] (defaultOptions R pos inc)) user)).map
        fun o => dropUndefined (withBitsArg k o) := by
  simp only [getOptions, hs, bind, Except.bind, pure, Except.pure, Except.map]

theorem getOptions_error_of_splitArgs (R : RegistryCfg) (k : Constants) (args : List JsVal)
    (inc : Bool) (e : JsError) (hs : splitArgs R args = .error e) :
    getOptions R k args inc = .error e := by
  simp only [getOptions, hs, bind, Except.bind]

theorem nodup_merged (d user : Fields) : ((assign (assign [] d) user).map Prod.fst).Nodup :=
  nodup_assign _ _ (nodup_assign _ _ (by simp))

theorem getProp_merged (d user : Fields) (key : Key) :
    getProp (assign (assign [] d) user) key = (lookup user key).getD (getProp d key) := by
  unfold getProp
  rw [lookup_assign, lookup_assign]
  cases lookup user key <;> simp [lookup]

theorem mem_dropUndefined (o : Fields) (kv : Key × JsVal) (h : kv ∈ dropUndefined o)
    (s : JsString) (hs : kv.1 = .str s) : kv.2 ≠ .undefined := by
  unfold dropUndefined at h
  have := (List.mem_filter.mp h).2
  rw [hs] at this
  simpa using this

theorem lookup_dropUndefined (o : Fields) (key : JsString) (h : (o.map Prod.fst).Nodup) :
    lookup (dropUndefined o) key = (lookup o key).filter fun v => !strictEq v .undefined := by
  unfold dropUndefined
  exact lookup_filter_of_nodup o _ (Key.str key) h

theorem lookup_dropUndefined_sym (o : Fields) (id : Nat) (h : (o.map Prod.fst).Nodup) :
    lookup (dropUndefined o) (.sym id) = lookup o (.sym id) := by
  unfold dropUndefined
  rw [lookup_filter_of_nodup o _ (Key.sym id) h]
  cases lookup o (.sym id) <;> simp [Option.filter]

theorem getProp_dropUndefined (o : Fields) (key : Key) (h : (o.map Prod.fst).Nodup) :
    getProp (dropUndefined o) key = getProp o key := by
  cases key with
  | sym id =>
    unfold getProp
    rw [lookup_dropUndefined_sym o id h]
  | str key =>
    unfold getProp
    rw [lookup_dropUndefined o key h]
    cases hl : lookup o (Key.str key) with
    | none => rfl
    | some v =>
      by_cases hv : v = .undefined
      · simp [Option.filter, hv]
      · simp [Option.filter, hv]

theorem lookup_dropUndefined_eq_none_iff (o : Fields) (key : JsString)
    (h : (o.map Prod.fst).Nodup) :
    lookup (dropUndefined o) key = none ↔ getProp o key = .undefined := by
  unfold getProp
  rw [lookup_dropUndefined o key h]
  cases hl : lookup o (Key.str key) with
  | none => simp
  | some v =>
    by_cases hv : v = .undefined
    · simp [Option.filter, hv]
    · simp [Option.filter, hv]

theorem getProp_withBitsArg (k : Constants) (o : Fields) (key : Key) :
    getProp (withBitsArg k o) key =
      if key = lit "bitsArg" ∧ strictEq (getProp o (lit "bits")) .undefined = false
      then bitsToArg k (getProp o (lit "bits")) else getProp o key := by
  unfold withBitsArg
  by_cases hb : getProp o (lit "bits") = .undefined
  · simp [hb]
  · by_cases hk : key = lit "bitsArg"
    · simp [hb, hk, getProp_setProp]
    · simp [hb, hk, getProp_setProp]

theorem nodup_withBitsArg (k : Constants) (o : Fields) (h : (o.map Prod.fst).Nodup) :
    ((withBitsArg k o).map Prod.fst).Nodup := by
  unfold withBitsArg
  split
  · exact nodup_setProp _ _ _ h
  · exact h

theorem sanitizePath_nil : sanitizePath [] = [] := by decide

theorem withSanitizedPath_string (o : Fields) (s : JsString)
    (h : getProp o (lit "path") = .string s) :
    ∃ o', withSanitizedPath o = .ok o' ∧ ((o'.map Prod.fst).Nodup ↔ (o.map Prod.fst).Nodup) ∧
      ∀ key : Key, getProp o' key =
        if key = lit "path" then .string (sanitizePath s) else getProp o key := by
  unfold withSanitizedPath
  rw [h]
  by_cases hs : s = []
  · subst hs
    refine ⟨o, by simp [truthy, pure, Except.pure], Iff.rfl, ?_⟩
    intro key
    by_cases hk : key = Key.str (lit "path")
    · simp [hk, h, sanitizePath_nil]
    · simp [hk]
  · refine ⟨setProp o (lit "path") (.string (sanitizePath s)), ?_, ?_, ?_⟩
    · simp [truthy, hs, sanitizePathVal, Except.map]
    · rw [keys_setProp]
      have : Key.str (lit "path") ∈ o.map Prod.fst := by
        rw [← lookup_isSome_iff]
        unfold getProp at h
        cases hl : lookup o (Key.str (lit "path")) with
        | none => simp [hl] at h
        | some v => rfl
      rw [if_pos this]
    · intro key
      rw [getProp_setProp]

theorem withSanitizedPath_falsy (o : Fields) (h : truthy (getProp o (lit "path")) = false) :
    withSanitizedPath o = .ok o := by
  simp [withSanitizedPath, h, pure, Except.pure]

theorem withSanitizedPath_error (o : Fields) (h : truthy (getProp o (lit "path")) = true)
    (hs : ∀ s, getProp o (lit "path") ≠ .string s) :
    withSanitizedPath o = .error .typeError := by
  unfold withSanitizedPath
  rw [if_pos h]
  cases hv : getProp o (lit "path") <;> simp_all [sanitizePathVal, Except.map]

/-- Whenever `getOptions` returns a record, no string-keyed field of it has
the value `undefined`. -/
theorem getOptions_no_undefined_string_field (R : RegistryCfg) (k : Constants)
    (args : List JsVal) (includeDefaults : Bool) (r : Fields)
    (h : getOptions R k args includeDefaults = .ok r) :
    ∀ kv ∈ r, ∀ s, kv.1 = Key.str s → kv.2 ≠ .undefined := by
  cases hs : splitArgs R args with
  | error e => rw [getOptions_error_of_splitArgs R k args _ e hs] at h; cases h
  | ok up =>
    obtain ⟨user, pos⟩ := up
    rw [getOptions_of_splitArgs R k args _ user pos hs] at h
    cases hw : withSanitizedPath (assign (assign [] (defaultOptions R pos includeDefaults)) user) with
    | error e => rw [hw] at h; cases h
    | ok o =>
      rw [hw] at h
      simp only [Except.map, Except.ok.injEq] at h
      subst h
      exact fun kv hkv => mem_dropUndefined _ kv hkv

/-- C10, at the failing input: for the path `HKCU\X` and an options object
whose only property is symbol-keyed with the value `undefined`, without
defaults, the returned record still holds that property: a field whose value
is `undefined`. -/
theorem getOptions_keeps_undefined_symbol_field :
    getOptions sampleRegistry regConstants
        [.string (lit "HKCU\\X"), .object [(Key.sym 0, .undefined)]] false
      = .ok [(Key.str (lit "path"), .string (lit "HKCU\\X")), (Key.sym 0, .undefined)] ∧
    getProp [(Key.str (lit "path"), JsVal.string (lit "HKCU\\X")), (Key.sym 0, .undefined)]
      (Key.sym 0) = .undefined :=
  ⟨rfl, rfl⟩

/-- What `getOptions` returns, property by property, in terms of the merged
record `Object.assign({}, defaultOptions, userOptions)`, when the merged path
is a string or falsy (a truthy path that is not a string throws). -/
theorem getOptions_getProp (R : RegistryCfg) (k : Constants) (args : List JsVal) (inc : Bool)
    (user : Fields) (pos : List JsVal) (hs : splitArgs R args = .ok (user, pos))
    (hp : (∃ s, getProp (assign (assign [] (defaultOptions R pos inc)) user) (lit "path")
        = .string s) ∨
      truthy (getProp (assign (assign [] (defaultOptions R pos inc)) user) (lit "path"))
        = false) :
    ∃ r, getOptions R k args inc = .ok r ∧
      (∀ key : Key, key ≠ lit "path" → key ≠ lit "bitsArg" →
        getProp r key = getProp (assign (assign [] (defaultOptions R pos inc)) user) key) ∧
      (∀ s, getProp (assign (assign [] (defaultOptions R pos inc)) user) (lit "path") = .string s →
        getProp r (lit "path") = .string (sanitizePath s)) ∧
      (truthy (getProp (assign (assign [] (defaultOptions R pos inc)) user) (lit "path")) = false →
        getProp r (lit "path")
          = getProp (assign (assign [] (defaultOptions R pos inc)) user) (lit "path")) ∧
      getProp r (lit "bitsArg") =
        (if strictEq (getProp (assign (assign [] (defaultOptions R pos inc)) user) (lit "bits"))
            .undefined = false
         then bitsToArg k (getProp (assign (assign [] (defaultOptions R pos inc)) user) (lit "bits"))
         else getProp (assign (assign [] (defaultOptions R pos inc)) user) (lit "bitsArg")) ∧
      (∀ key : JsString, lookup r key = none ↔ getProp r key = .undefined) := by
  generalize hm : assign (assign [] (defaultOptions R pos inc)) user = m at hp ⊢
  have hnd : (m.map Prod.fst).Nodup := hm ▸ nodup_merged _ _
  have h1 : Key.str (lit "bits") ≠ Key.str (lit "path") := by decide
  have h2 : Key.str (lit "bitsArg") ≠ Key.str (lit "path") := by decide
  have h3 : Key.str (lit "path") ≠ Key.str (lit "bitsArg") := by decide
  have key_fact : ∀ o', withSanitizedPath m = .ok o' → ((o'.map Prod.fst).Nodup) →
      (∀ key : Key, key ≠ lit "path" → getProp o' key = getProp m key) →
      ∃ r, getOptions R k args inc = .ok r ∧
      (∀ key : Key, key ≠ lit "path" → key ≠ lit "bitsArg" → getProp r key = getProp m key) ∧
      getProp r (lit "path") = getProp o' (lit "path") ∧
      getProp r (lit "bitsArg") =
        (if strictEq (getProp m (lit "bits")) .undefined = false
         then bitsToArg k (getProp m (lit "bits")) else getProp m (lit "bitsArg")) ∧
      (∀ key : JsString, lookup r key = none ↔ getProp r key = .undefined) := by
    intro o' ho' hnd' hget
    refine ⟨dropUndefined (withBitsArg k o'), ?_, ?_, ?_, ?_, ?_⟩
    · rw [getOptions_of_splitArgs R k args inc user pos hs, hm, ho']
      rfl
    · intro key hk1 hk2
      rw [getProp_dropUndefined _ _ (nodup_withBitsArg k o' hnd'), getProp_withBitsArg,
        if_neg (fun h => hk2 h.1), hget key hk1]
    · rw [getProp_dropUndefined _ _ (nodup_withBitsArg k o' hnd'), getProp_withBitsArg,
        if_neg (fun h => h3 h.1)]
    · rw [getProp_dropUndefined _ _ (nodup_withBitsArg k o' hnd'), getProp_withBitsArg,
        hget _ h1, hget _ h2]
      simp only [eq_self_iff_true, true_and]
    · intro key
      rw [lookup_dropUndefined_eq_none_iff _ _ (nodup_withBitsArg k o' hnd'),
        getProp_dropUndefined _ _ (nodup_withBitsArg k o' hnd')]
  rcases hp with ⟨s, hs'⟩ | hf
  · obtain ⟨o', ho', hnd', hget⟩ := withSanitizedPath_string m s hs'
    obtain ⟨r, hr, ha, hb, hc, hd⟩ := key_fact o' ho' (hnd'.mpr hnd)
      (fun key hk => by rw [hget key, if_neg hk])
    refine ⟨r, hr, ha, ?_, ?_, hc, hd⟩
    · intro s2 hs2
      rw [hb, hget, if_pos rfl]
      rw [hs'] at hs2
      cases hs2
      rfl
    · intro hf
      rw [hs'] at hf ⊢
      have : s = [] := by simpa [truthy] using hf
      rw [hb, hget, if_pos rfl, this, sanitizePath_nil]
  · obtain ⟨r, hr, ha, hb, hc, hd⟩ := key_fact m (withSanitizedPath_falsy m hf) hnd
      (fun key _ => rfl)
    refine ⟨r, hr, ha, ?_, fun _ => hb, hc, hd⟩
    intro s hs2
    rw [hb, hs2]
    rw [hs2] at hf
    have : s = [] := by simpa [truthy] using hf
    rw [this, sanitizePath_nil]

theorem splitArgs_trailing_object (R : RegistryCfg) (path name data : JsVal) (O : Fields) :
    splitArgs R [path, name, data, .object O] = .ok (O, [path, name, data]) := by
  simp [splitArgs, isObject, typeofObject, isArrayLike, ownFields, Except.map, bind,
    Except.bind, pure, Except.pure]

theorem getProp_defaultOptions (R : RegistryCfg) (path name data : JsVal) (rest : List JsVal)
    (inc : Bool) :
    getProp (defaultOptions R (path :: name :: data :: rest) inc) (lit "path") = path ∧
    getProp (defaultOptions R (path :: name :: data :: rest) inc) (lit "name") = name ∧
    getProp (defaultOptions R (path :: name :: data :: rest) inc) (lit "data") = data ∧
    getProp (defaultOptions R (path :: name :: data :: rest) inc) (lit "lowercase")
      = (if inc then R.lowercase else .undefined) ∧
    getProp (defaultOptions R (path :: name :: data :: rest) inc) (lit "format")
      = (if inc then R.format else .undefined) ∧
    getProp (defaultOptions R (path :: name :: data :: rest) inc) (lit "bits")
      = (if inc then R.bits else .undefined) :=
  ⟨rfl, rfl, rfl, rfl, rfl, rfl⟩

/-- C8, counterexample: with positional path `HKCU\A` and the options object
`{path: 'HKLM/B '}`, the returned path is `HKLM\B`, not the value the options
object holds. -/
theorem getOptions_option_path_is_normalized :
    (getOptions sampleRegistry regConstants
        [.string (lit "HKCU\\A"), .string (lit "n"), .number (.int 1),
         .object [(lit "path", .string (lit "HKLM/B "))]] true).map
      (fun r => getProp r (lit "path")) = .ok (.string (lit "HKLM\\B")) ∧
    getProp [(lit "path", JsVal.string (lit "HKLM/B "))] (lit "path")
      = .string (lit "HKLM/B ") ∧
    lit "HKLM\\B" ≠ lit "HKLM/B " :=
  ⟨rfl, rfl, by decide⟩

/-- C8, amended: for every positional path, name, data and every trailing
options object `O`, provided the merged path (`O.path` when `O` has it, else
the positional one) is a string or falsy, `getOptions` returns a record in
which path is the merged path passed through `sanitizePath` when it is a
string (and the merged path itself when it is falsy); name and data are `O`'s
value whenever `O` has the field and the positional one otherwise; lowercase,
format and bits are `O`'s value when `O` has them and otherwise the Registry
default when `includeDefaults` is true; and when `includeDefaults` is false
and `O` does not set them they are absent. -/
theorem getOptions_options_override (R : RegistryCfg) (k : Constants)
    (path name data : JsVal) (O : Fields) (includeDefaults : Bool)
    (hp : (∃ s, (lookup O (lit "path")).getD path = .string s) ∨
      truthy ((lookup O (lit "path")).getD path) = false) :
    ∃ r, getOptions R k [path, name, data, .object O] includeDefaults = .ok r ∧
      (∀ s, (lookup O (lit "path")).getD path = .string s →
        getProp r (lit "path") = .string (sanitizePath s)) ∧
      (truthy ((lookup O (lit "path")).getD path) = false →
        getProp r (lit "path") = (lookup O (lit "path")).getD path) ∧
      getProp r (lit "name") = (lookup O (lit "name")).getD name ∧
      getProp r (lit "data") = (lookup O (lit "data")).getD data ∧
      getProp r (lit "lowercase") =
        (lookup O (lit "lowercase")).getD (if includeDefaults then R.lowercase else .undefined) ∧
      getProp r (lit "format") =
        (lookup O (lit "format")).getD (if includeDefaults then R.format else .undefined) ∧
      getProp r (lit "bits") =
        (lookup O (lit "bits")).getD (if includeDefaults then R.bits else .undefined) ∧
      (includeDefaults = false →
        (lookup O (lit "lowercase") = none → lookup r (lit "lowercase") = none) ∧
        (lookup O (lit "format") = none → lookup r (lit "format") = none) ∧
        (lookup O (lit "bits") = none → lookup r (lit "bits") = none)) := by
  obtain ⟨d1, d2, d3, d4, d5, d6⟩ := getProp_defaultOptions R path name data [] includeDefaults
  have hs := splitArgs_trailing_object R path name data O
  have hm : ∀ key, getProp (assign (assign [] (defaultOptions R [path, name, data]
      includeDefaults)) O) key
      = (lookup O key).getD (getProp (defaultOptions R [path, name, data] includeDefaults) key) :=
    fun key => getProp_merged _ _ key
  obtain ⟨r, hr, ha, hb, hc, -, hd⟩ := getOptions_getProp R k _ includeDefaults O _ hs
    (by rw [hm, d1]; exact hp)
  rw [hm, d1] at hb hc
  have e1 := ha (lit "name") (by decide) (by decide)
  have e2 := ha (lit "data") (by decide) (by decide)
  have e3 := ha (lit "lowercase") (by decide) (by decide)
  have e4 := ha (lit "format") (by decide) (by decide)
  have e5 := ha (lit "bits") (by decide) (by decide)
  rw [hm, d2] at e1
  rw [hm, d3] at e2
  rw [hm, d4] at e3
  rw [hm, d5] at e4
  rw [hm, d6] at e5
  refine ⟨r, hr, hb, hc, e1, e2, e3, e4, e5, ?_⟩
  rintro rfl
  refine ⟨fun h => ?_, fun h => ?_, fun h => ?_⟩
  · rw [hd, e3, h]; rfl
  · rw [hd, e4, h]; rfl
  · rw [hd, e5, h]; rfl

/-- Options `{data: 2}` over positional data `1`, without defaults. -/
theorem getOptions_options_override_witness :
    ∃ r, getOptions sampleRegistry regConstants
        [.string (lit "HKCU/A"), .string (lit "n"), .number (.int 1),
         .object [(lit "data", .number (.int 2))]] false = .ok r ∧
      getProp r (lit "path") = .string (sanitizePath (lit "HKCU/A")) ∧
      getProp r (lit "data") = .number (.int 2) ∧
      lookup r (lit "bits") = none := by
  obtain ⟨r, hr, h1, -, -, h4, -, -, -, h8⟩ :=
    getOptions_options_override sampleRegistry regConstants
      (.string (lit "HKCU/A")) (.string (lit "n")) (.number (.int 1))
      [(lit "data", .number (.int 2))] false (Or.inl ⟨lit "HKCU/A", rfl⟩)
  exact ⟨r, hr, h1 _ rfl, h4, (h8 rfl).2.2 rfl⟩

theorem splitArgs_positional3 (R : RegistryCfg) (path name data : JsVal)
    (h : isObject data = .ok false) :
    splitArgs R [path, name, data] = .ok ([], [path, name, data]) := by
  simp [splitArgs, h, bind, Except.bind, pure, Except.pure]

/-- Three positional arguments whose last one is not taken for an options
object (a string, number, large integer, Buffer, Uint8Array or array) are
returned as path (normalized), name and data. -/
theorem getOptions_positional_data (R : RegistryCfg) (k : Constants) (P name : JsString)
    (data : JsVal) (inc : Bool) (h : isObject data = .ok false) :
    ∃ r, getOptions R k [.string P, .string name, data] inc = .ok r ∧
      getProp r (lit "path") = .string (sanitizePath P) ∧
      getProp r (lit "name") = .string name ∧
      getProp r (lit "data") = data := by
  obtain ⟨d1, d2, d3, -⟩ := getProp_defaultOptions R (.string P) (.string name) data [] inc
  obtain ⟨r, hr, ha, hb, -⟩ := getOptions_getProp R k _ inc [] _
    (splitArgs_positional3 R _ _ data h)
    (Or.inl ⟨P, by rw [getProp_merged, d1]; rfl⟩)
  refine ⟨r, hr, hb P (by rw [getProp_merged, d1]; rfl), ?_, ?_⟩
  · rw [ha _ (by decide) (by decide), getProp_merged, d2]; rfl
  · rw [ha _ (by decide) (by decide), getProp_merged, d3]; rfl

theorem isObject_data_shapes (s : JsString) (n : JsNum) (i : Int) (bs : List Byte)
    (off len : Nat) (items : List JsVal) :
    isObject (.string s) = .ok false ∧ isObject (.number n) = .ok false ∧
    isObject (.bigint i) = .ok false ∧ isObject (.buffer bs) = .ok false ∧
    isObject (.uint8Array bs off len) = .ok false ∧ isObject (.array items) = .ok false ∧
    isObject (.arrayBuffer bs) = .ok true :=
  ⟨rfl, rfl, rfl, rfl, rfl, rfl, rfl⟩

/-- C9, at the failing input: an ArrayBuffer given as the third positional
argument is taken for the options object, so the record `getOptions` returns
has path and name from the first two positions but no data field at all. -/
theorem getOptions_arrayBuffer_data_is_lost (R : RegistryCfg) (k : Constants)
    (P name : JsString) (bytes : List Byte) (includeDefaults : Bool) :
    ∃ r, getOptions R k [.string P, .string name, .arrayBuffer bytes] includeDefaults = .ok r ∧
      getProp r (lit "path") = .string (sanitizePath P) ∧
      getProp r (lit "name") = .string name ∧
      getProp r (lit "data") = .undefined ∧
      lookup r (lit "data") = none := by
  have hs : splitArgs R [.string P, .string name, .arrayBuffer bytes]
      = .ok ([], [.string P, .string name]) := by
    simp [splitArgs, isObject, typeofObject, isArrayLike, ownFields, Except.map, bind,
      Except.bind, pure, Except.pure]
  have d1 : getProp (defaultOptions R [.string P, .string name] includeDefaults) (lit "path")
      = .string P := rfl
  have d2 : getProp (defaultOptions R [.string P, .string name] includeDefaults) (lit "name")
      = .string name := rfl
  have d3 : getProp (defaultOptions R [.string P, .string name] includeDefaults) (lit "data")
      = .undefined := rfl
  obtain ⟨r, hr, ha, hb, -, -, hd⟩ := getOptions_getProp R k _ includeDefaults [] _ hs
    (Or.inl ⟨P, by rw [getProp_merged, d1]; rfl⟩)
  have e3 : getProp r (lit "data") = .undefined := by
    rw [ha _ (by decide) (by decide), getProp_merged, d3]; rfl
  refine ⟨r, hr, hb P (by rw [getProp_merged, d1]; rfl), ?_, e3, (hd _).mpr e3⟩
  rw [ha _ (by decide) (by decide), getProp_merged, d2]; rfl

/-! ## DeleteEngine -/

theorem delete_of_getOptions (R : RegistryCfg) (k : Constants) (args : List JsVal) (r : Fields)
    (h : getOptions R k args true = .ok r) :
    Registry.delete R k args = .ok
      (if strictEq (getProp r (lit "name")) .undefined = false then Registry.deleteValue R r
       else Registry.deleteKey r) := by
  unfold Registry.delete
  rw [h]
  by_cases hn : strictEq (getProp r (lit "name")) .undefined = false
  · simp [hn, bind, Except.bind, pure, Except.pure]
  · simp [hn, bind, Except.bind, pure, Except.pure]

theorem RegistryCfg.fresh (R : RegistryCfg) :
    lit "path" ≠ R.IS_OPTIONS ∧ lit "name" ≠ R.IS_OPTIONS ∧ lit "bits" ≠ R.IS_OPTIONS := by
  have h := R.is_options_fresh
  simp only [List.mem_cons, not_or] at h
  exact ⟨Ne.symm h.2.2.2.1, Ne.symm h.2.2.2.2.1, Ne.symm h.2.2.1⟩

/-- The record `getOptions` makes of a single options object with a string
path, read at path, name and bits. -/
theorem getOptions_request (R : RegistryCfg) (k : Constants) (F : Fields) (P : JsString)
    (hpath : lookup F (lit "path") = some (.string P)) :
    ∃ r, getOptions R k [.object F] true = .ok r ∧
      getProp r (lit "path") = .string (sanitizePath P) ∧
      getProp r (lit "name") = getProp F (lit "name") ∧
      getProp r (lit "bits") = (lookup F (lit "bits")).getD R.bits := by
  obtain ⟨f1, f2, f3⟩ := R.fresh
  have hs : splitArgs R [.object F] = .ok (setProp F R.IS_OPTIONS (.bool true), []) := by
    simp [splitArgs, isObject, typeofObject, isArrayLike, ownFields, Except.map, bind,
      Except.bind, pure, Except.pure]
  have hm : ∀ key, key ≠ R.IS_OPTIONS →
      getProp (assign (assign [] (defaultOptions R [] true))
        (setProp F R.IS_OPTIONS (.bool true))) key
      = (lookup F key).getD (getProp (defaultOptions R [] true) key) := by
    intro key hk
    rw [getProp_merged, lookup_setProp, if_neg (fun e => hk (Key.str.inj e))]
  have hmp := hm _ f1
  rw [hpath] at hmp
  obtain ⟨r, hr, ha, hb, -⟩ := getOptions_getProp R k _ true _ _ hs (Or.inl ⟨P, hmp⟩)
  refine ⟨r, hr, hb P hmp, ?_, ?_⟩
  · rw [ha _ (by decide) (by decide), hm _ f2]; rfl
  · rw [ha _ (by decide) (by decide), hm _ f3]; rfl

/-- The record `getOptions` makes of a positional path alone or of a
positional path and a string name, read at path, name and bits. -/
theorem getOptions_positional (R : RegistryCfg) (k : Constants) (P : JsString)
    (names : List JsString) (hn : names.length ≤ 1) :
    ∃ r, getOptions R k (.string P :: names.map .string) true = .ok r ∧
      getProp r (lit "path") = .string (sanitizePath P) ∧
      getProp r (lit "name") = (names.map JsVal.string).getD 0 .undefined ∧
      getProp r (lit "bits") = R.bits := by
  have hs : splitArgs R (.string P :: names.map .string)
      = .ok ([], .string P :: names.map .string) := by
    match names, hn with
    | [], _ => rfl
    | [X], _ => rfl
  have d1 : getProp (defaultOptions R (.string P :: names.map .string) true) (lit "path")
      = .string P := rfl
  have d2 : getProp (defaultOptions R (.string P :: names.map .string) true) (lit "name")
      = (names.map JsVal.string).getD 0 .undefined := rfl
  have d3 : getProp (defaultOptions R (.string P :: names.map .string) true) (lit "bits")
      = R.bits := rfl
  obtain ⟨r, hr, ha, hb, -⟩ := getOptions_getProp R k _ true [] _ hs
    (Or.inl ⟨P, by rw [getProp_merged, d1]; rfl⟩)
  refine ⟨r, hr, hb P (by rw [getProp_merged, d1]; rfl), ?_, ?_⟩
  · rw [ha _ (by decide) (by decide), getProp_merged, d2]; rfl
  · rw [ha _ (by decide) (by decide), getProp_merged, d3]; rfl

theorem delete_command (R : RegistryCfg) (k : Constants) (args : List JsVal) (r : Fields)
    (P : JsString) (name : JsVal) (h : getOptions R k args true = .ok r)
    (hp : getProp r (lit "path") = .string (sanitizePath P))
    (hn : getProp r (lit "name") = name) (hb : truthy (getProp r (lit "bits")) = false) :
    Registry.delete R k args = .ok
      (if strictEq name .undefined then
        [.string (lit "delete"), .string (sanitizePath P), .string (lit "/f")]
       else if strictEq name (.string R.DEFAULT) then
        [.string (lit "delete"), .string (sanitizePath P), .string (lit "/ve"),
         .string (lit "/f")]
       else [.string (lit "delete"), .string (sanitizePath P), .string (lit "/v"), name,
         .string (lit "/f")]) := by
  rw [delete_of_getOptions R k args r h]
  by_cases hu : name = .undefined
  · subst hu
    simp [Registry.deleteKey, hp, hn, hb]
  · have hu' : strictEq name .undefined = false := by simpa using hu
    by_cases hd : strictEq name (.string R.DEFAULT) = true
    · simp [Registry.deleteValue, hp, hn, hb, hu, hd]
    · simp [Registry.deleteValue, hp, hn, hb, hu, hd]

/-- C5: with no view selected (no `bits` in the request and a falsy
`Registry.bits`), for every string path `P`: `Registry.delete` on a request
without a name issues `['delete', sanitizePath(P), '/f']`; with a name `X`
other than `Registry.DEFAULT` it issues
`['delete', sanitizePath(P), '/v', X, '/f']`; with the name `Registry.DEFAULT`
it issues `['delete', sanitizePath(P), '/ve', '/f']`, which is also what
`deleteValue` issues when the name is absent. This holds for the request given
as an options object (with any further fields other than `bits`) and as
positional arguments. -/
theorem delete_dispatch (R : RegistryCfg) (k : Constants) (P X : JsString) (F : Fields)
    (hview : truthy R.bits = false) (hX : X ≠ R.DEFAULT)
    (hpath : lookup F (lit "path") = some (.string P))
    (hbits : lookup F (lit "bits") = none) :
    (getProp F (lit "name") = .undefined → Registry.delete R k [.object F] = .ok
      [.string (lit "delete"), .string (sanitizePath P), .string (lit "/f")]) ∧
    (getProp F (lit "name") = .string X → Registry.delete R k [.object F] = .ok
      [.string (lit "delete"), .string (sanitizePath P), .string (lit "/v"), .string X,
       .string (lit "/f")]) ∧
    (getProp F (lit "name") = .string R.DEFAULT → Registry.delete R k [.object F] = .ok
      [.string (lit "delete"), .string (sanitizePath P), .string (lit "/ve"),
       .string (lit "/f")]) ∧
    Registry.delete R k [.string P] = .ok
      [.string (lit "delete"), .string (sanitizePath P), .string (lit "/f")] ∧
    Registry.delete R k [.string P, .string X] = .ok
      [.string (lit "delete"), .string (sanitizePath P), .string (lit "/v"), .string X,
       .string (lit "/f")] ∧
    Registry.delete R k [.string P, .string R.DEFAULT] = .ok
      [.string (lit "delete"), .string (sanitizePath P), .string (lit "/ve"),
       .string (lit "/f")] ∧
    Registry.deleteValue R [(lit "path", .string (sanitizePath P))] =
      [.string (lit "delete"), .string (sanitizePath P), .string (lit "/ve"),
       .string (lit "/f")] := by
  obtain ⟨r, hr, r1, r2, r3⟩ := getOptions_request R k F P hpath
  rw [hbits] at r3
  have hb : truthy (getProp r (lit "bits")) = false := by rw [r3]; exact hview
  have hobj := delete_command R k _ r P _ hr r1 r2 hb
  obtain ⟨r0, hr0, p1, p2, p3⟩ := getOptions_positional R k P [] (by simp)
  have h0 := delete_command R k _ r0 P _ hr0 p1 p2 (by rw [p3]; exact hview)
  obtain ⟨rx, hrx, x1, x2, x3⟩ := getOptions_positional R k P [X] (by simp)
  have hx := delete_command R k _ rx P _ hrx x1 x2 (by rw [x3]; exact hview)
  obtain ⟨rd, hrd, y1, y2, y3⟩ := getOptions_positional R k P [R.DEFAULT] (by simp)
  have hd := delete_command R k _ rd P _ hrd y1 y2 (by rw [y3]; exact hview)
  refine ⟨fun hn => ?_, fun hn => ?_, fun hn => ?_, ?_, ?_, ?_, ?_⟩
  · rw [hobj, hn]; simp
  · rw [hobj, hn]; simp [hX]
  · rw [hobj, hn]; simp
  · refine h0.trans ?_; simp
  · refine hx.trans ?_; simp [hX]
  · refine hd.trans ?_; simp
  · have e1 : getProp [(lit "path", JsVal.string (sanitizePath P))] (lit "name") = .undefined :=
      rfl
    have e2 : getProp [(lit "path", JsVal.string (sanitizePath P))] (lit "bits") = .undefined :=
      rfl
    have e3 : getProp [(lit "path", JsVal.string (sanitizePath P))] (lit "path")
        = .string (sanitizePath P) := rfl
    simp [Registry.deleteValue, e1, e2, e3, truthy]

/-- The named-value deletion issued for `HKCU/Software/X` and `Version`. -/
theorem delete_dispatch_witness :
    Registry.delete sampleRegistry regConstants
        [.string (lit "HKCU/Software/X"), .string (lit "Version")] = .ok
      [.string (lit "delete"), .string (sanitizePath (lit "HKCU/Software/X")),
       .string (lit "/v"), .string (lit "Version"), .string (lit "/f")] :=
  (delete_dispatch sampleRegistry regConstants (lit "HKCU/Software/X") (lit "Version")
    [(lit "path", .string (lit "HKCU/Software/X"))] rfl (by decide) rfl rfl).2.2.2.2.1

/-- The record `getOptions` makes of a path and the options object
`{bits: b}` for a non-zero integer `b`, and the commands the three delete
functions build from it: each ends with the number `b` itself. -/
theorem delete_commands_with_bits (R : RegistryCfg) (k : Constants) (P : JsString) (b : Int)
    (hb : b ≠ 0) :
    ∃ r, getOptions R k [.string P, .object [(lit "bits", .number (.int b))]] true = .ok r ∧
      getProp r (lit "bitsArg") = bitsToArg k (.number (.int b)) ∧
      Registry.deleteKey r =
        [.string (lit "delete"), .string (sanitizePath P), .string (lit "/f"),
         .number (.int b)] ∧
      Registry.deleteValue R r =
        [.string (lit "delete"), .string (sanitizePath P), .string (lit "/ve"),
         .string (lit "/f"), .number (.int b)] ∧
      Registry.clearValues r =
        [.string (lit "delete"), .string (sanitizePath P), .string (lit "/va"),
         .string (lit "/f"), .number (.int b)] := by
  have hs : splitArgs R [.string P, .object [(lit "bits", .number (.int b))]]
      = .ok ([(lit "bits", .number (.int b))], [.string P]) := by
    simp [splitArgs, isObject, typeofObject, isArrayLike, ownFields, Except.map, bind,
      Except.bind, pure, Except.pure]
  have hm : ∀ key, getProp (assign (assign [] (defaultOptions R [.string P] true))
      [(lit "bits", .number (.int b))]) key
      = (lookup [(lit "bits", JsVal.number (.int b))] key).getD
          (getProp (defaultOptions R [.string P] true) key) :=
    fun key => getProp_merged _ _ key
  have mp : getProp (assign (assign [] (defaultOptions R [.string P] true))
      [(lit "bits", .number (.int b))]) (lit "path") = .string P := by rw [hm]; rfl
  have mb : getProp (assign (assign [] (defaultOptions R [.string P] true))
      [(lit "bits", .number (.int b))]) (lit "bits") = .number (.int b) := by rw [hm]; rfl
  obtain ⟨r, hr, ha, hpth, -, hc, -⟩ := getOptions_getProp R k _ true _ _ hs (Or.inl ⟨P, mp⟩)
  have e1 : getProp r (lit "path") = .string (sanitizePath P) := hpth P mp
  have e2 : getProp r (lit "name") = .undefined := by
    rw [ha _ (by decide) (by decide), hm]; rfl
  have e3 : getProp r (lit "bits") = .number (.int b) := by
    rw [ha _ (by decide) (by decide), mb]
  refine ⟨r, hr, ?_, ?_, ?_, ?_⟩
  · rw [hc, mb]; rfl
  · simp [Registry.deleteKey, e1, e3, truthy, hb]
  · simp [Registry.deleteValue, e1, e2, e3, truthy, hb]
  · simp [Registry.clearValues, e1, e3, truthy, hb]

/-- C6, at the failing inputs: for a request with `bits: 64` the record has
`bitsArg = ARG_64BIT`, yet the commands of `deleteKey`, `deleteValue` and
`clearValues` end with the number 64 rather than with that flag; for `bits: 16`
the record has no `bitsArg`, yet the commands end with the number 16. -/
theorem delete_commands_append_bits_not_flag (R : RegistryCfg) (k : Constants) (P : JsString) :
    (∃ r, getOptions R k [.string P, .object [(lit "bits", .number (.int 64))]] true = .ok r ∧
      getProp r (lit "bitsArg") = .string k.ARG_64BIT ∧
      Registry.deleteKey r =
        [.string (lit "delete"), .string (sanitizePath P), .string (lit "/f"),
         .number (.int 64)] ∧
      Registry.deleteValue R r =
        [.string (lit "delete"), .string (sanitizePath P), .string (lit "/ve"),
         .string (lit "/f"), .number (.int 64)] ∧
      Registry.clearValues r =
        [.string (lit "delete"), .string (sanitizePath P), .string (lit "/va"),
         .string (lit "/f"), .number (.int 64)]) ∧
    (∃ r, getOptions R k [.string P, .object [(lit "bits", .number (.int 16))]] true = .ok r ∧
      getProp r (lit "bitsArg") = .undefined ∧
      Registry.deleteKey r =
        [.string (lit "delete"), .string (sanitizePath P), .string (lit "/f"),
         .number (.int 16)]) := by
  obtain ⟨r, hr, h1, h2, h3, h4⟩ := delete_commands_with_bits R k P 64 (by decide)
  obtain ⟨r', hr', g1, g2, -⟩ := delete_commands_with_bits R k P 16 (by decide)
  exact ⟨⟨r, hr, h1.trans rfl, h2, h3, h4⟩, ⟨r', hr', g1.trans rfl, g2⟩⟩

/-- C7, at the failing input: for the request made of path `HKCU\X` and
`bits: 64`, with subkeys `A` and `B`, `clearKeys` issues two commands that
delete the value named 64 under each child key, not the child keys. -/
theorem clearKeys_with_bits_deletes_values :
    (getOptions sampleRegistry regConstants
        [.string (lit "HKCU\\X"), .object [(lit "bits", .number (.int 64))]] true).bind
      (fun options => Registry.clearKeys stubRuntime sampleRegistry regConstants options
        [.string (lit "A"), .string (lit "B")])
    = .ok [[.string (lit "delete"), .string (lit "HKCU\\X\\A"), .string (lit "/v"),
            .number (.int 64), .string (lit "/f")],
           [.string (lit "delete"), .string (lit "HKCU\\X\\B"), .string (lit "/v"),
            .number (.int 64), .string (lit "/f")]] :=
  rfl

theorem delete_child_key (R : RegistryCfg) (k : Constants) (child : JsString)
    (hview : truthy R.bits = false) :
    Registry.delete R k [.string child, .undefined] = .ok
      [.string (lit "delete"), .string (sanitizePath child), .string (lit "/f")] := by
  have hs : splitArgs R [.string child, .undefined] = .ok ([], [.string child, .undefined]) :=
    rfl
  have hm : ∀ key, getProp (assign (assign [] (defaultOptions R [.string child, .undefined] true))
      []) key = getProp (defaultOptions R [.string child, .undefined] true) key :=
    fun key => getProp_merged _ _ key
  have mp : getProp (assign (assign [] (defaultOptions R [.string child, .undefined] true)) [])
      (lit "path") = .string child := by rw [hm]; rfl
  obtain ⟨r, hr, ha, hpth, -⟩ := getOptions_getProp R k _ true _ _ hs (Or.inl ⟨child, mp⟩)
  have e2 : getProp r (lit "name") = .undefined := by
    rw [ha _ (by decide) (by decide), hm]; rfl
  have e3 : getProp r (lit "bits") = R.bits := by
    rw [ha _ (by decide) (by decide), hm]; rfl
  rw [delete_command R k _ r child .undefined hr (hpth child mp) e2 (by rw [e3]; exact hview)]
  rfl

/-- When the request carries no `bits` and `Registry.bits` is falsy,
`clearKeys` issues one key deletion per subkey, of the normalized child path. -/
theorem clearKeys_without_bits (rt : Runtime) (R : RegistryCfg) (k : Constants)
    (options : Fields) (P : JsString) (keys : List JsString)
    (hp : getProp options (lit "path") = .string P)
    (hb : getProp options (lit "bits") = .undefined) (hview : truthy R.bits = false) :
    Registry.clearKeys rt R k options (keys.map .string) = .ok
      (keys.map fun K =>
        [.string (lit "delete"), .string (sanitizePath (P ++ lit "\\" ++ K)),
         .string (lit "/f")]) := by
  induction keys with
  | nil => rfl
  | cons K rest ih =>
    simp only [List.map_cons, Registry.clearKeys, hp, hb, jsToString, ih,
      delete_child_key R k _ hview, bind, Except.bind, pure, Except.pure]

/-! ## The view flag of the resolved record -/

theorem getOptions_ok_inv (R : RegistryCfg) (k : Constants) (args : List JsVal) (inc : Bool)
    (r : Fields) (h : getOptions R k args inc = .ok r) :
    ∃ user pos, splitArgs R args = .ok (user, pos) ∧
      ((∃ s, getProp (assign (assign [] (defaultOptions R pos inc)) user) (lit "path")
          = .string s) ∨
        truthy (getProp (assign (assign [] (defaultOptions R pos inc)) user) (lit "path"))
          = false) := by
  cases hs : splitArgs R args with
  | error e => rw [getOptions_error_of_splitArgs R k args _ e hs] at h; cases h
  | ok up =>
    obtain ⟨user, pos⟩ := up
    refine ⟨user, pos, rfl, ?_⟩
    rw [getOptions_of_splitArgs R k args _ user pos hs] at h
    by_cases ht : truthy (getProp (assign (assign [] (defaultOptions R pos inc)) user)
        (lit "path")) = true
    · by_cases hstr : ∃ s, getProp (assign (assign [] (defaultOptions R pos inc)) user)
          (lit "path") = .string s
      · exact Or.inl hstr
      · rw [withSanitizedPath_error _ ht (fun s hs' => hstr ⟨s, hs'⟩)] at h
        cases h
    · exact Or.inr (by simpa using ht)

theorem strictEq_int_iff (v : JsVal) (i : Int) :
    strictEq v (.number (.int i)) = true ↔ v = .number (.int i) := by
  cases v with
  | number n =>
    cases n with
    | int j => simp [strictEq]
    | nan => simp [strictEq]
    | inf b => simp [strictEq]
  | _ => simp [strictEq]

theorem bitsToArg_eq_64 (k : Constants) (v : JsVal) (hflags : k.ARG_64BIT ≠ k.ARG_32BIT) :
    bitsToArg k v = .string k.ARG_64BIT ↔ v = .number (.int 64) := by
  constructor
  · intro h
    unfold bitsToArg at h
    split at h
    · cases h
    · split at h
      · rename_i h64
        exact (strictEq_int_iff v 64).mp h64
      · split at h
        · simp at h
          exact absurd h.symm hflags
        · cases h
  · rintro rfl
    rfl

theorem bitsToArg_eq_32 (k : Constants) (v : JsVal) (hflags : k.ARG_64BIT ≠ k.ARG_32BIT) :
    bitsToArg k v = .string k.ARG_32BIT ↔ v = .number (.int 32) := by
  constructor
  · intro h
    unfold bitsToArg at h
    split at h
    · cases h
    · split at h
      · simp at h
        exact absurd h hflags
      · split at h
        · rename_i h32
          exact (strictEq_int_iff v 32).mp h32
        · cases h
  · rintro rfl
    rfl

theorem bitsToArg_other (k : Constants) (v : JsVal) (h64 : v ≠ .number (.int 64))
    (h32 : v ≠ .number (.int 32)) : bitsToArg k v = .undefined := by
  unfold bitsToArg
  split
  · rfl
  · split
    · rename_i h
      exact absurd ((strictEq_int_iff v 64).mp h) h64
    · split
      · rename_i h
        exact absurd ((strictEq_int_iff v 32).mp h) h32
      · rfl

/-- C11, counterexample: an options object that carries `bitsArg` itself and
no `bits` comes back with that `bitsArg` (here equal to `ARG_64BIT`) although
the resolved bits is absent. -/
theorem getOptions_keeps_supplied_bitsArg :
    (getOptions sampleRegistry regConstants
        [.object [(lit "bitsArg", .string regConstants.ARG_64BIT)]] true).map
      (fun r => (lookup r (lit "bits"), lookup r (lit "bitsArg")))
    = .ok (none, some (.string regConstants.ARG_64BIT)) :=
  rfl

/-- C11, amended: for every argument list for which `getOptions` returns a
record, provided the options object taken from the arguments has no `bitsArg`
field of its own or the resolved bits is present, and the two view flags
differ: `bitsArg` is `ARG_64BIT` exactly when the resolved bits is the number
64, is `ARG_32BIT` exactly when it is the number 32, and for every other bits
value (absent included) the record has no `bitsArg` field. -/
theorem getOptions_bitsArg (R : RegistryCfg) (k : Constants) (args : List JsVal)
    (includeDefaults : Bool) (r user : Fields) (pos : List JsVal)
    (h : getOptions R k args includeDefaults = .ok r)
    (hs : splitArgs R args = .ok (user, pos))
    (hown : lookup user (lit "bitsArg") = none ∨ getProp r (lit "bits") ≠ .undefined)
    (hflags : k.ARG_64BIT ≠ k.ARG_32BIT) :
    (getProp r (lit "bitsArg") = .string k.ARG_64BIT ↔
      getProp r (lit "bits") = .number (.int 64)) ∧
    (getProp r (lit "bitsArg") = .string k.ARG_32BIT ↔
      getProp r (lit "bits") = .number (.int 32)) ∧
    (getProp r (lit "bits") ≠ .number (.int 64) → getProp r (lit "bits") ≠ .number (.int 32) →
      lookup r (lit "bitsArg") = none) := by
  obtain ⟨user', pos', hs', hp⟩ := getOptions_ok_inv R k args includeDefaults r h
  rw [hs] at hs'
  cases hs'
  obtain ⟨r', hr', ha, -, -, hc, hd⟩ := getOptions_getProp R k args includeDefaults user pos hs hp
  rw [h] at hr'
  cases hr'
  have hbits := ha (lit "bits") (by decide) (by decide)
  have hdef : getProp (assign (assign [] (defaultOptions R pos includeDefaults)) user)
      (lit "bitsArg") = (lookup user (lit "bitsArg")).getD .undefined := by
    rw [getProp_merged]; rfl
  rw [← hbits] at hc
  by_cases hu : getProp r (lit "bits") = .undefined
  · have hnone : lookup user (lit "bitsArg") = none := by
      rcases hown with h1 | h1
      · exact h1
      · exact absurd hu h1
    have harg : getProp r (lit "bitsArg") = .undefined := by
      rw [hc, hu, hdef, hnone]; rfl
    rw [harg, hu]
    refine ⟨⟨nofun, nofun⟩, ⟨nofun, nofun⟩, fun _ _ => ?_⟩
    rw [hd, harg]
  · have hne : strictEq (getProp r (lit "bits")) .undefined = false := by simpa using hu
    have harg : getProp r (lit "bitsArg") = bitsToArg k (getProp r (lit "bits")) := by
      rw [hc, if_pos hne]
    rw [harg]
    refine ⟨bitsToArg_eq_64 k _ hflags, bitsToArg_eq_32 k _ hflags, fun h64 h32 => ?_⟩
    rw [hd, harg, bitsToArg_other k _ h64 h32]

/-- The view flag of the record made from `HKCU\X` and `{bits: 64}`. -/
theorem getOptions_bitsArg_witness :
    ∃ r, getOptions sampleRegistry regConstants
        [.string (lit "HKCU\\X"), .object [(lit "bits", .number (.int 64))]] false = .ok r ∧
      (getProp r (lit "bitsArg") = .string regConstants.ARG_64BIT ↔
        getProp r (lit "bits") = .number (.int 64)) :=
  ⟨_, rfl, (getOptions_bitsArg sampleRegistry regConstants
    [.string (lit "HKCU\\X"), .object [(lit "bits", .number (.int 64))]] false _
    [(lit "bits", .number (.int 64))] [.string (lit "HKCU\\X")] rfl rfl (Or.inl rfl)
    (by decide)).1⟩

/-! ## PathNormalizer -/

theorem replaceSlashes_no_slash (s : JsString) : (47 : Nat) ∉ replaceSlashes s := by
  unfold replaceSlashes
  intro h
  obtain ⟨c, -, hc⟩ := List.mem_map.mp h
  split at hc <;> omega

theorem replaceSlashes_of_no_slash (s : JsString) (h : (47 : Nat) ∉ s) : replaceSlashes s = s := by
  unfold replaceSlashes
  induction s with
  | nil => rfl
  | cons c cs ih =>
    have hc : c ≠ 47 := fun e => h (by simp [e])
    have hcs : (47 : Nat) ∉ cs := fun e => h (by simp [e])
    simp [hc, ih hcs]

theorem sanitizePath_eq (p : JsString) : sanitizePath p = replaceSlashes (trim p) := by
  unfold sanitizePath
  by_cases h : (47 : Nat) ∈ trim p
  · simp [h]
  · simp [h, replaceSlashes_of_no_slash _ h]

/-- C12: for every string `p`, `sanitizePath(p)` is `p` trimmed and with every
forward slash replaced by a backslash; the result contains no forward slash,
and it is the trimmed string when that has none. -/
theorem sanitizePath_spec (p : JsString) :
    sanitizePath p = replaceSlashes (trim p) ∧
    (47 : Nat) ∉ sanitizePath p ∧
    ((47 : Nat) ∉ trim p → sanitizePath p = trim p) ∧
    sanitizePathVal (.string p) = .ok (.string (replaceSlashes (trim p))) := by
  have h1 := sanitizePath_eq p
  refine ⟨h1, ?_, ?_, ?_⟩
  · rw [h1]; exact replaceSlashes_no_slash _
  · intro h; rw [h1, replaceSlashes_of_no_slash _ h]
  · simp [sanitizePathVal, h1]

theorem dropWhile_head_false (p : Nat → Bool) (l : List Nat) (c : Nat)
    (h : (l.dropWhile p).head? = some c) : p c = false := by
  induction l with
  | nil => simp at h
  | cons a l ih =>
    rw [List.dropWhile_cons] at h
    by_cases ha : p a = true
    · rw [if_pos ha] at h; exact ih h
    · rw [if_neg ha] at h
      simp at h
      rw [← h]; simpa using ha

theorem dropWhile_eq_self (p : Nat → Bool) (l : List Nat)
    (h : ∀ c, l.head? = some c → p c = false) : l.dropWhile p = l := by
  cases l with
  | nil => rfl
  | cons a l =>
    rw [List.dropWhile_cons, if_neg]
    simp [h a rfl]

theorem dropWhile_getLast (p : Nat → Bool) (l : List Nat) (h : l.dropWhile p ≠ []) :
    (l.dropWhile p).getLast? = l.getLast? := by
  induction l with
  | nil => rfl
  | cons a l ih =>
    rw [List.dropWhile_cons] at h ⊢
    by_cases ha : p a = true
    · rw [if_pos ha] at h ⊢
      rw [ih h]
      cases l with
      | nil => simp at h
      | cons b l => simp [List.getLast?_cons_cons]
    · rw [if_neg ha]

/-- A string has no surrounding white space when neither its first nor its last
code unit is white space. -/
theorem trim_eq_self (t : JsString) (hh : ∀ c, t.head? = some c → isWhiteSpace c = false)
    (hl : ∀ c, t.getLast? = some c → isWhiteSpace c = false) : trim t = t := by
  unfold trim
  rw [dropWhile_eq_self _ t hh, dropWhile_eq_self _ t.reverse (by simpa using hl),
    List.reverse_reverse]

theorem trim_edges (s : JsString) :
    (∀ c, (trim s).head? = some c → isWhiteSpace c = false) ∧
    (∀ c, (trim s).getLast? = some c → isWhiteSpace c = false) := by
  unfold trim
  constructor
  · intro c hc
    rw [List.head?_reverse] at hc
    by_cases hne : (s.dropWhile isWhiteSpace).reverse.dropWhile isWhiteSpace = []
    · rw [hne] at hc; simp at hc
    · rw [dropWhile_getLast _ _ hne, List.getLast?_reverse] at hc
      exact dropWhile_head_false _ _ _ hc
  · intro c hc
    rw [List.getLast?_reverse] at hc
    exact dropWhile_head_false _ _ _ hc

theorem replaceSlashes_edges (t : JsString)
    (hh : ∀ c, t.head? = some c → isWhiteSpace c = false)
    (hl : ∀ c, t.getLast? = some c → isWhiteSpace c = false) :
    (∀ c, (replaceSlashes t).head? = some c → isWhiteSpace c = false) ∧
    (∀ c, (replaceSlashes t).getLast? = some c → isWhiteSpace c = false) := by
  have key : ∀ d, isWhiteSpace d = false → isWhiteSpace (if d = 47 then 92 else d) = false := by
    intro d hd
    split
    · rfl
    · exact hd
  unfold replaceSlashes
  constructor
  · intro c hc
    rw [List.head?_map] at hc
    cases hd : t.head? with
    | none => simp [hd] at hc
    | some d =>
      simp [hd] at hc
      rw [← hc]
      exact key d (hh d hd)
  · intro c hc
    rw [List.getLast?_map] at hc
    cases hd : t.getLast? with
    | none => simp [hd] at hc
    | some d =>
      simp [hd] at hc
      rw [← hc]
      exact key d (hl d hd)

/-- C13: `sanitizePath` is idempotent, and a path with no forward slash and
no white space at either end is returned unchanged. -/
theorem sanitizePath_idempotent (p : JsString) :
    sanitizePath (sanitizePath p) = sanitizePath p ∧
    ((47 : Nat) ∉ p → (∀ c, p.head? = some c → isWhiteSpace c = false) →
      (∀ c, p.getLast? = some c → isWhiteSpace c = false) → sanitizePath p = p) := by
  have fixed : ∀ q : JsString, (47 : Nat) ∉ q → (∀ c, q.head? = some c → isWhiteSpace c = false) →
      (∀ c, q.getLast? = some c → isWhiteSpace c = false) → sanitizePath q = q := by
    intro q hq hh hl
    rw [sanitizePath_eq q, trim_eq_self q hh hl, replaceSlashes_of_no_slash q hq]
  refine ⟨?_, fixed p⟩
  obtain ⟨eh, el⟩ := trim_edges p
  obtain ⟨rh, rl⟩ := replaceSlashes_edges (trim p) eh el
  rw [sanitizePath_eq p]
  exact fixed _ (replaceSlashes_no_slash _) rh rl

/-- The normalization of `HKCU/Software/X` and of its backslash form. -/
theorem sanitizePath_idempotent_witness :
    sanitizePath (lit "HKCU/Software/X") = lit "HKCU\\Software\\X" ∧
    sanitizePath (lit "HKCU\\Software\\X") = lit "HKCU\\Software\\X" :=
  ⟨by decide, (sanitizePath_idempotent (lit "HKCU\\Software\\X")).2 (by decide) (by decide)
    (by decide)⟩

/-! ## Type inference of `inferAndStringifyData` -/

theorem hexEncode_length (bs : List Byte) : (hexEncode bs).length = 2 * bs.length := by
  induction bs with
  | nil => rfl
  | cons b bs ih => simp [hexEncode, ih]; omega

theorem outcome_buffer_binary (rt : Runtime) (k : Constants) (bytes : List Byte) :
    inferAndStringifyDataOutcome rt k (.buffer bytes) (.string k.BINARY) =
      if rt.maxStringLength < 2 * bytes.length then .error .stringTooLong
      else .ok (.string (hexEncode bytes), .string k.BINARY) := by
  simp [inferAndStringifyDataOutcome, conversionError, inferAndStringifyData, stringifyBuffer,
    hexEncode_length]

/-- C14, counterexample: for a Buffer of 268435445 bytes and type BINARY the
hexadecimal text would have 536870890 code units, more than the host's
536870888, and the call fails with `ERR_STRING_TOO_LONG`. -/
theorem inferAndStringifyData_raises_on_long_buffer :
    inferAndStringifyDataOutcome stubRuntime regConstants
        (.buffer (List.replicate 268435445 0)) (.string regConstants.BINARY)
      = .error .stringTooLong := by
  rw [outcome_buffer_binary, List.length_replicate]
  exact if_pos (by decide)

/-- C14, amended: `inferAndStringifyData` raises only when the wire string it
has to create is longer than the host allows. It returns the data and the
type unchanged for `undefined`, `null`, a boolean and a plain object; it
returns its pair for every number and large integer and for a string under a
type other than BINARY and MULTI_SZ; for every data value it returns its pair
whenever the resulting string fits the host's limit, and whenever it raises
the resulting string exceeds that limit. -/
theorem inferAndStringifyData_outcome (rt : Runtime) (k : Constants) (data type : JsVal) :
    inferAndStringifyDataOutcome rt k .undefined type = .ok (.undefined, type) ∧
    inferAndStringifyDataOutcome rt k .null type = .ok (.null, type) ∧
    (∀ b, inferAndStringifyDataOutcome rt k (.bool b) type = .ok (.bool b, type)) ∧
    (∀ fields, inferAndStringifyDataOutcome rt k (.object fields) type
      = .ok (.object fields, type)) ∧
    (∀ n, inferAndStringifyDataOutcome rt k (.number n) type
      = .ok (inferAndStringifyData rt k (.number n) type)) ∧
    (∀ i, inferAndStringifyDataOutcome rt k (.bigint i) type
      = .ok (inferAndStringifyData rt k (.bigint i) type)) ∧
    (∀ s, type ≠ .string k.BINARY → type ≠ .string k.MULTI_SZ →
      inferAndStringifyDataOutcome rt k (.string s) type
        = .ok (inferAndStringifyData rt k (.string s) type)) ∧
    ((∀ s, (inferAndStringifyData rt k data type).1 = .string s →
        s.length ≤ rt.maxStringLength) →
      inferAndStringifyDataOutcome rt k data type
        = .ok (inferAndStringifyData rt k data type)) ∧
    (∀ e, inferAndStringifyDataOutcome rt k data type = .error e →
      ∃ s, (inferAndStringifyData rt k data type).1 = .string s ∧
        rt.maxStringLength < s.length) := by
  refine ⟨rfl, rfl, fun _ => rfl, fun _ => rfl, fun _ => rfl, fun _ => rfl, ?_, ?_, ?_⟩
  · intro s hb hm
    have hb' : strictEq type (.string k.BINARY) = false := by
      cases type <;> simp_all [strictEq]
    have hm' : strictEq type (.string k.MULTI_SZ) = false := by
      cases type <;> simp_all [strictEq]
    simp [inferAndStringifyDataOutcome, conversionError, hb', hm']
  · intro hfit
    unfold inferAndStringifyDataOutcome
    split
    · rename_i e s _ hs
      rw [if_neg (Nat.not_lt.mpr (hfit s hs))]
    · rfl
  · intro e he
    unfold inferAndStringifyDataOutcome at he
    split at he
    · rename_i e' s _ hs
      by_cases hlt : rt.maxStringLength < s.length
      · exact ⟨s, hs, hlt⟩
      · rw [if_neg hlt] at he
        cases he
    · cases he

/-- A two-byte Buffer under BINARY fits the host's limit and is encoded. -/
theorem inferAndStringifyData_outcome_witness :
    inferAndStringifyDataOutcome stubRuntime regConstants (.buffer [1, 255])
        (.string regConstants.BINARY)
      = .ok (inferAndStringifyData stubRuntime regConstants (.buffer [1, 255])
        (.string regConstants.BINARY)) :=
  (inferAndStringifyData_outcome stubRuntime regConstants (.buffer [1, 255])
    (.string regConstants.BINARY)).2.2.2.2.2.2.2.1
    (fun s hs => by
      have h : s = hexEncode [1, 255] := by
        have h2 : (inferAndStringifyData stubRuntime regConstants (.buffer [1, 255])
          (.string regConstants.BINARY)).1 = .string (hexEncode [1, 255]) := rfl
        rw [h2] at hs
        exact (JsVal.string.inj hs).symm
      rw [h]
      decide)

/-- C15: a type other than `undefined` is returned as the resolved type for
every data value; with the type unset the resolved type is BINARY for a
Buffer, ArrayBuffer or Uint8Array, MULTI_SZ for an array, DWORD for a number,
QWORD for a large integer, SZ for a string, and it stays unset for absent
data. -/
theorem inferAndStringifyData_resolved_type (rt : Runtime) (k : Constants) :
    (∀ data type, type ≠ .undefined → (inferAndStringifyData rt k data type).2 = type) ∧
    (∀ bytes, (inferAndStringifyData rt k (.buffer bytes) .undefined).2 = .string k.BINARY) ∧
    (∀ bytes, (inferAndStringifyData rt k (.arrayBuffer bytes) .undefined).2
      = .string k.BINARY) ∧
    (∀ buf off len, (inferAndStringifyData rt k (.uint8Array buf off len) .undefined).2
      = .string k.BINARY) ∧
    (∀ items, (inferAndStringifyData rt k (.array items) .undefined).2 = .string k.MULTI_SZ) ∧
    (∀ n, (inferAndStringifyData rt k (.number n) .undefined).2 = .string k.DWORD) ∧
    (∀ i, (inferAndStringifyData rt k (.bigint i) .undefined).2 = .string k.QWORD) ∧
    (∀ s, (inferAndStringifyData rt k (.string s) .undefined).2 = .string k.SZ) ∧
    (inferAndStringifyData rt k .undefined .undefined).2 = .undefined ∧
    (inferAndStringifyData rt k .null .undefined).2 = .undefined := by
  refine ⟨?_, fun _ => rfl, fun _ => rfl, fun _ _ _ => rfl, fun _ => rfl, fun _ => rfl,
    fun _ => rfl, fun _ => rfl, rfl, rfl⟩
  intro data type ht
  have hne : strictEq type .undefined = false := by simpa using ht
  cases data with
  | string s =>
    simp only [inferAndStringifyData, hne]
    split
    · rfl
    · split
      · rfl
      · simp
  | _ => simp [inferAndStringifyData, stringifyBuffer, hne, ht]

/-- C20: for every Number `n`, whatever its magnitude, encoding with the type
unset returns `n` itself, not a string, with the resolved type DWORD; among
them `2^40` and `-2^40`, outside the 32-bit range. -/
theorem inferAndStringifyData_number_unchecked (rt : Runtime) (k : Constants) :
    (∀ n : JsNum, inferAndStringifyData rt k (.number n) .undefined
      = (.number n, .string k.DWORD)) ∧
    inferAndStringifyData rt k (.number (.int (2 ^ 40))) .undefined
      = (.number (.int (2 ^ 40)), .string k.DWORD) ∧
    inferAndStringifyData rt k (.number (.int (-2 ^ 40))) .undefined
      = (.number (.int (-2 ^ 40)), .string k.DWORD) :=
  ⟨fun _ => rfl, rfl, rfl⟩

theorem escapeNul_append (a b : JsString) : escapeNul (a ++ b) = escapeNul a ++ escapeNul b := by
  induction a with
  | nil => rfl
  | cons c cs ih =>
    rw [List.cons_append, escapeNul, escapeNul, ih]
    split <;> rfl

theorem escapeNul_of_no_nul (e : JsString) (h : (0 : Nat) ∉ e) : escapeNul e = e := by
  induction e with
  | nil => rfl
  | cons c cs ih =>
    have hc : c ≠ 0 := fun e => h (by simp [e])
    have hcs : (0 : Nat) ∉ cs := fun e => h (by simp [e])
    simp [escapeNul, hc, ih hcs]

theorem escapeNul_joinStrings (s : List JsString) (h : ∀ e ∈ s, (0 : Nat) ∉ e) :
    escapeNul (joinStrings [0] s) = joinStrings [92, 48] s := by
  induction s with
  | nil => rfl
  | cons x rest ih =>
    have hx := escapeNul_of_no_nul x (h x (by simp))
    have ih' := ih (fun e he => h e (List.mem_cons_of_mem _ he))
    cases rest with
    | nil => simp [joinStrings, hx]
    | cons y ys =>
      rw [joinStrings, joinStrings]
      simp only [escapeNul_append, hx, ih']
      rfl

/-- C19: for every sequence of strings whose elements contain no null
character, encoding the string made by joining them with null characters
under type MULTI_SZ gives the same pair, wire string and resolved type, as
encoding the sequence itself with the type unset. -/
theorem multiString_string_matches_array (rt : Runtime) (k : Constants) (s : List JsString)
    (h : ∀ e ∈ s, (0 : Nat) ∉ e) :
    inferAndStringifyData rt k (.string (joinStrings [0] s)) (.string k.MULTI_SZ)
      = inferAndStringifyData rt k (.array (s.map .string)) .undefined := by
  obtain ⟨-, -, h3, -⟩ := k.distinct
  simp [inferAndStringifyData, Ne.symm h3, escapeNul_joinStrings s h, joinItems_strings,
    lit_backslash_zero]

/-- The two encodings of the sequence `a`, `b` agree. -/
theorem multiString_string_matches_array_witness :
    inferAndStringifyData stubRuntime regConstants (.string (joinStrings [0] [lit "a", lit "b"]))
        (.string regConstants.MULTI_SZ)
      = inferAndStringifyData stubRuntime regConstants
        (.array ([lit "a", lit "b"].map .string)) .undefined :=
  multiString_string_matches_array stubRuntime regConstants [lit "a", lit "b"] (by decide)

/-! ## Type names -/

theorem startsWith_append_self (p s : JsString) : startsWith (p ++ s) p = true := by
  induction p with
  | nil => cases s <;> rfl
  | cons c cs ih => simp [startsWith, ih]

theorem asciiUpper_idem (s : JsString) : asciiUpper (asciiUpper s) = asciiUpper s := by
  unfold asciiUpper
  rw [List.map_map]
  apply List.map_congr_left
  intro c _
  simp only [Function.comp]
  by_cases h : 97 ≤ c ∧ c ≤ 122
  · have h2 : ¬ (97 ≤ c - 32 ∧ c - 32 ≤ 122) := by omega
    rw [if_pos h, if_neg h2]
  · simp [h]

theorem asciiUpper_reg (s : JsString) :
    asciiUpper (lit "REG_" ++ asciiUpper s) = lit "REG_" ++ asciiUpper s := by
  have h : asciiUpper (lit "REG_") = lit "REG_" := by decide
  have happ : ∀ a b, asciiUpper (a ++ b) = asciiUpper a ++ asciiUpper b := by
    intro a b
    simp [asciiUpper]
  rw [happ, h, asciiUpper_idem]

/-- C18: for every type string `t`, `sanitizeType(t)` is the upper-cased `t`,
with `REG_` prepended only if the upper-cased `t` does not already start with
it; the result always starts with `REG_`; for `undefined` the result is
`undefined`; and, `toUpperCase` leaving upper-cased text and `REG_` followed by
upper-cased text as they are, `sanitizeType(sanitizeType(t))` is
`sanitizeType(t)`. -/
theorem sanitizeType_spec (rt : Runtime) (t : JsString)
    (hupper : ∀ s, rt.toUpperCase (rt.toUpperCase s) = rt.toUpperCase s)
    (hreg : ∀ s, rt.toUpperCase (lit "REG_" ++ rt.toUpperCase s)
      = lit "REG_" ++ rt.toUpperCase s) :
    sanitizeType rt (.string t) = .ok (.string
      (if startsWith (rt.toUpperCase t) (lit "REG_") then rt.toUpperCase t
       else lit "REG_" ++ rt.toUpperCase t)) ∧
    (∃ r, sanitizeType rt (.string t) = .ok (.string r) ∧ startsWith r (lit "REG_") = true) ∧
    sanitizeType rt .undefined = .ok .undefined ∧
    (sanitizeType rt (.string t)).bind (sanitizeType rt) = sanitizeType rt (.string t) := by
  by_cases h : startsWith (rt.toUpperCase t) (lit "REG_") = true
  · have e : sanitizeType rt (.string t) = .ok (.string (rt.toUpperCase t)) := by
      simp [sanitizeType, h]
    refine ⟨by rw [e, if_pos h], ⟨_, e, h⟩, rfl, ?_⟩
    rw [e]
    simp [Except.bind, sanitizeType, hupper, h]
  · have e : sanitizeType rt (.string t) = .ok (.string (lit "REG_" ++ rt.toUpperCase t)) := by
      simp [sanitizeType, h]
    refine ⟨by rw [e, if_neg h], ⟨_, e, startsWith_append_self _ _⟩, rfl, ?_⟩
    rw [e]
    simp [Except.bind, sanitizeType, hreg, startsWith_append_self]

/-- The type name made of `dword`, with ASCII upper-casing. -/
theorem sanitizeType_spec_witness :
    sanitizeType stubRuntime (.string (lit "dword")) = .ok (.string (lit "REG_DWORD")) ∧
    (sanitizeType stubRuntime (.string (lit "dword"))).bind (sanitizeType stubRuntime)
      = sanitizeType stubRuntime (.string (lit "dword")) :=
  ⟨(sanitizeType_spec stubRuntime (lit "dword") asciiUpper_idem asciiUpper_reg).1.trans rfl,
   (sanitizeType_spec stubRuntime (lit "dword") asciiUpper_idem asciiUpper_reg).2.2.2⟩

/-! ## LocaleBootstrap: the markers -/

theorem startsWith_nil (s : JsString) : startsWith s [] = true := by
  cases s <;> rfl

theorem findFrom_char (c : Nat) (pre post : JsString) (i : Nat) (h : c ∉ pre) :
    findFrom [c] (pre ++ c :: post) i = some (i + pre.length) := by
  induction pre generalizing i with
  | nil => simp [findFrom, startsWith, startsWith_nil]
  | cons d ds ih =>
    have hd : d ≠ c := fun e => h (by simp [e])
    have hds : c ∉ ds := fun e => h (by simp [e])
    rw [List.cons_append, findFrom, if_neg (by simp [startsWith, hd]), ih _ hds]
    simp
    omega

theorem findFrom_crlf (pre post : JsString) (i : Nat) (h : (13 : Nat) ∉ pre) :
    findFrom [13, 10] (pre ++ 13 :: 10 :: post) i = some (i + pre.length) := by
  induction pre generalizing i with
  | nil => simp [findFrom, startsWith, startsWith_nil]
  | cons d ds ih =>
    have hd : d ≠ 13 := fun e => h (by simp [e])
    have hds : (13 : Nat) ∉ ds := fun e => h (by simp [e])
    rw [List.cons_append, findFrom, if_neg (by simp [startsWith, hd]), ih _ hds]
    simp
    omega

theorem indexOf_of_findFrom (s x y needle : JsString) (p : Int) (n : Nat) (hs : s = x ++ y)
    (hp : p = (x.length : Int)) (hf : findFrom needle y x.length = some n) :
    indexOf s needle p = (n : Int) := by
  subst hs hp
  simp [indexOf, hf]

theorem slice_middle (s x y z : JsString) (lo hi : Int) (hs : s = x ++ y ++ z)
    (hlo : lo = (x.length : Int)) (hhi : hi = ((x.length + y.length : Nat) : Int)) :
    slice s lo hi = y := by
  subst hs hlo hhi
  have h1 : ¬ ((x.length : Int) < 0) := by omega
  have h2 : ¬ (((x.length + y.length : Nat) : Int) < 0) := by omega
  have h3 : min (x.length : Int) ((x ++ y ++ z).length : Int) = (x.length : Int) := by
    simp [List.length_append]; omega
  have h4 : min (((x.length + y.length : Nat) : Int)) ((x ++ y ++ z).length : Int)
      = ((x.length + y.length : Nat) : Int) := by
    simp [List.length_append]
  unfold slice
  simp only [h1, h2, if_false, h3, h4]
  have h5 : (((x.length + y.length : Nat) : Int) - (x.length : Int)).toNat = y.length := by
    simp
  rw [h5, Int.toNat_ofNat, List.append_assoc, List.drop_left, List.take_left]

theorem startsWith_iff_begins (s p : JsString) : startsWith s p = true ↔ p <+: s := by
  induction p generalizing s with
  | nil => simp [startsWith_nil]
  | cons c cs ih =>
    cases s with
    | nil => simp [startsWith]
    | cons d ds =>
      simp only [startsWith, Bool.and_eq_true, beq_iff_eq, ih, List.cons_prefix_cons]
      constructor
      · rintro ⟨h1, h2⟩; exact ⟨h1.symm, h2⟩
      · rintro ⟨h1, h2⟩; exact ⟨h1.symm, h2⟩

theorem findFrom_none (needle t : JsString) (i : Nat) (hne : needle ≠ [])
    (h : ¬ needle <:+: t) : findFrom needle t i = none := by
  induction t generalizing i with
  | nil =>
    cases needle with
    | nil => exact absurd rfl hne
    | cons c cs => rfl
  | cons d ds ih =>
    have hs : startsWith (d :: ds) needle = false := by
      cases hb : startsWith (d :: ds) needle with
      | false => rfl
      | true => exact absurd ((startsWith_iff_begins _ _).mp hb).isInfix h
    rw [findFrom, if_neg (by simp [hs])]
    exact ih (i + 1) (fun hin => h (List.infix_cons hin))

theorem findFrom_crlf_first (pre post : JsString) (i : Nat)
    (h : ¬ [13, 10] <:+: pre ++ [13]) :
    findFrom [13, 10] (pre ++ 13 :: 10 :: post) i = some (i + pre.length) := by
  induction pre generalizing i with
  | nil => simp [findFrom, startsWith, startsWith_nil]
  | cons d ds ih =>
    have hs : startsWith (d :: (ds ++ 13 :: 10 :: post)) [13, 10] = false := by
      cases hb : startsWith (d :: (ds ++ 13 :: 10 :: post)) [13, 10] with
      | false => rfl
      | true =>
        exfalso
        cases ds with
        | nil => simp [startsWith] at hb
        | cons e es =>
          simp only [List.cons_append, startsWith, Bool.and_eq_true, beq_iff_eq] at hb
          exact h ⟨[], es ++ [13], by simp [hb.1, hb.2.1]⟩
    rw [List.cons_append, findFrom, if_neg (by simp [hs]), ih (i + 1)
      (fun hin => h (by simpa using List.infix_cons hin))]
    simp
    omega

/-- The markers, given where the search for the first `(` ends up: the output
is `X`, a token `(name)`, text without `(`, a token `(value)`, and a rest. -/
theorem setDefaultValues_from_open (out X name m2 value rest : JsString)
    (hout : out = X ++ 40 :: (name ++ 41 :: (m2 ++ 40 :: (value ++ 41 :: rest))))
    (hname : (41 : Nat) ∉ name) (hm2 : (40 : Nat) ∉ m2) (hvalue : (41 : Nat) ∉ value)
    (hopen : indexOf out [40] (indexOf out [13, 10] 1) = (X.length : Int)) :
    setDefaultValues out = ([40] ++ name ++ [41], [40] ++ value ++ [41]) := by
  have i3 : indexOf out [41] (X.length : Int) = ((X.length + (1 + name.length) : Nat) : Int) :=
    indexOf_of_findFrom out X ((40 :: name) ++ 41 :: (m2 ++ 40 :: (value ++ 41 :: rest)))
      [41] _ _ (by rw [hout]; simp) rfl
      (by
        have := findFrom_char 41 (40 :: name) (m2 ++ 40 :: (value ++ 41 :: rest)) X.length
          (by simp [hname])
        simpa [Nat.add_comm, Nat.add_left_comm, Nat.add_assoc] using this)
  have i4 : indexOf out [40] ((X.length + (1 + name.length) : Nat) : Int)
      = ((X.length + (1 + name.length) + (1 + m2.length) : Nat) : Int) :=
    indexOf_of_findFrom out (X ++ 40 :: name) ((41 :: m2) ++ 40 :: (value ++ 41 :: rest))
      [40] _ _ (by rw [hout]; simp) (by simp; omega)
      (by
        have := findFrom_char 40 (41 :: m2) (value ++ 41 :: rest) (X ++ 40 :: name).length
          (by simp [hm2])
        simpa [Nat.add_comm, Nat.add_left_comm, Nat.add_assoc] using this)
  have i5 : indexOf out [41] ((X.length + (1 + name.length) + (1 + m2.length) : Nat) : Int)
      = ((X.length + (1 + name.length) + (1 + m2.length) + (1 + value.length) : Nat) : Int) :=
    indexOf_of_findFrom out (X ++ 40 :: name ++ 41 :: m2) ((40 :: value) ++ 41 :: rest)
      [41] _ _ (by rw [hout]; simp) (by simp; omega)
      (by
        have := findFrom_char 41 (40 :: value) rest (X ++ 40 :: name ++ 41 :: m2).length
          (by simp [hvalue])
        simpa [Nat.add_comm, Nat.add_left_comm, Nat.add_assoc] using this)
  have s1 : slice out (X.length : Int) (((X.length + (1 + name.length) : Nat) : Int) + 1)
      = [40] ++ name ++ [41] :=
    slice_middle out X ([40] ++ name ++ [41]) (m2 ++ 40 :: (value ++ 41 :: rest)) _ _
      (by rw [hout]; simp) rfl (by simp; omega)
  have s2 : slice out ((X.length + (1 + name.length) + (1 + m2.length) : Nat) : Int)
      (((X.length + (1 + name.length) + (1 + m2.length) + (1 + value.length) : Nat) : Int) + 1)
      = [40] ++ value ++ [41] :=
    slice_middle out (X ++ 40 :: name ++ 41 :: m2) ([40] ++ value ++ [41]) rest _ _
      (by rw [hout]; simp) (by simp; omega) (by simp; omega)
  have e1 : lit "\r\n" = [13, 10] := by decide
  have e2 : lit "(" = [40] := by decide
  have e3 : lit ")" = [41] := by decide
  unfold setDefaultValues
  simp only [e1, e2, e3, hopen, i3, i4, i5, s1, s2]

/-- C17, counterexample: for the output `(a)`, line break, `(b) (c)` the
markers become `(b)` and `(c)`, while the first two parenthesized tokens of
the output are `(a)` and `(b)`. -/
theorem setDefaultValues_skips_first_line :
    setDefaultValues (lit "(a)\r\n(b) (c)") = (lit "(b)", lit "(c)") ∧
    startsWith (lit "(a)\r\n(b) (c)") (lit "(a)") = true ∧
    lit "(b)" ≠ lit "(a)" ∧ lit "(c)" ≠ lit "(b)" :=
  ⟨by decide, by decide, by decide, by decide⟩

/-- C17, amended: `setDefaultValues` sets `VALUE_DEFAULT` to the first
parenthesized token and `VALUE_NOT_SET` to the second one, each with its
parentheses, counted from where its search begins: at the first CRLF found
from index 1 on, or at the start of the output when there is no such CRLF.
First case: the output is a first code unit, text `a` in which (with a
carriage return appended) no CRLF occurs, a CRLF, text without `(`, `(name)`,
text without `(`, `(value)`, and a rest. Second case: no CRLF occurs in the
output after its first code unit, and the output is text without `(`,
`(name)`, text without `(`, `(value)`, and a rest. In both, the name and the
value hold no `)`. -/
theorem setDefaultValues_markers (m1 name m2 value rest : JsString)
    (hm1 : (40 : Nat) ∉ m1) (hname : (41 : Nat) ∉ name)
    (hm2 : (40 : Nat) ∉ m2) (hvalue : (41 : Nat) ∉ value) :
    (∀ (h0 : Nat) (a : JsString), ¬ lit "\r\n" <:+: a ++ lit "\r" →
      setDefaultValues (h0 :: a ++ lit "\r\n" ++ m1 ++ lit "(" ++ name ++ lit ")" ++ m2 ++
          lit "(" ++ value ++ lit ")" ++ rest)
        = (lit "(" ++ name ++ lit ")", lit "(" ++ value ++ lit ")")) ∧
    (¬ lit "\r\n" <:+: (m1 ++ lit "(" ++ name ++ lit ")" ++ m2 ++ lit "(" ++ value ++ lit ")"
          ++ rest).drop 1 →
      setDefaultValues (m1 ++ lit "(" ++ name ++ lit ")" ++ m2 ++ lit "(" ++ value ++ lit ")"
          ++ rest)
        = (lit "(" ++ name ++ lit ")", lit "(" ++ value ++ lit ")")) := by
  have e0 : lit "\r" = [13] := by decide
  have e1 : lit "\r\n" = [13, 10] := by decide
  have e2 : lit "(" = [40] := by decide
  have e3 : lit ")" = [41] := by decide
  rw [e0, e1, e2, e3]
  constructor
  · intro h0 a ha
    generalize hout : h0 :: a ++ [13, 10] ++ m1 ++ [40] ++ name ++ [41] ++ m2 ++ [40] ++ value ++
      [41] ++ rest = out
    have i1 : indexOf out [13, 10] 1 = ((1 + a.length : Nat) : Int) :=
      indexOf_of_findFrom out [h0]
        (a ++ 13 :: 10 :: (m1 ++ 40 :: (name ++ 41 :: (m2 ++ 40 :: (value ++ 41 :: rest)))))
        [13, 10] 1 _ (by rw [← hout]; simp) rfl (by simpa using findFrom_crlf_first a _ 1 ha)
    have i2 : indexOf out [40] ((1 + a.length : Nat) : Int)
        = (((h0 :: a ++ 13 :: 10 :: m1).length : Nat) : Int) :=
      indexOf_of_findFrom out (h0 :: a)
        ((13 :: 10 :: m1) ++ 40 :: (name ++ 41 :: (m2 ++ 40 :: (value ++ 41 :: rest))))
        [40] _ _ (by rw [← hout]; simp) (by simp; omega)
        (by
          have := findFrom_char 40 (13 :: 10 :: m1)
            (name ++ 41 :: (m2 ++ 40 :: (value ++ 41 :: rest))) (h0 :: a).length
            (by simp [hm1])
          simpa [Nat.add_comm, Nat.add_left_comm, Nat.add_assoc] using this)
    exact setDefaultValues_from_open out (h0 :: a ++ 13 :: 10 :: m1) name m2 value rest
      (by rw [← hout]; simp) hname hm2 hvalue (by rw [i1, i2])
  · intro hno
    generalize hout : m1 ++ [40] ++ name ++ [41] ++ m2 ++ [40] ++ value ++ [41] ++ rest = out
      at hno
    have hlen : 1 ≤ out.length := by rw [← hout]; simp; omega
    have i1 : indexOf out [13, 10] 1 = -1 := by
      unfold indexOf
      have hmin : min (1 : Int).toNat out.length = 1 := by
        simp; omega
      simp only [hmin, findFrom_none [13, 10] (out.drop 1) 1 (by simp) hno]
    have i2 : indexOf out [40] (-1) = ((m1.length : Nat) : Int) := by
      have := indexOf_of_findFrom out [] out [40] 0 m1.length (by simp) rfl
        (by
          have := findFrom_char 40 m1 (name ++ 41 :: (m2 ++ 40 :: (value ++ 41 :: rest))) 0 hm1
          rw [← hout]
          simpa using this)
      unfold indexOf at this ⊢
      simpa using this
    exact setDefaultValues_from_open out m1 name m2 value rest
      (by rw [← hout]; simp) hname hm2 hvalue (by rw [i1, i2])

/-- The markers read from the output of an English `reg.exe` (first case),
from a first line with a lone carriage return (first case), and from an output
without a line break (second case). -/
theorem setDefaultValues_markers_witness :
    setDefaultValues (lit "\r\nHKEY_CLASSES_ROOT\r\n    (Default)    REG_SZ    (value not set)\r\n\r\n")
      = (lit "(Default)", lit "(value not set)") ∧
    setDefaultValues (lit "x\ry\r\n(a)(b)") = (lit "(a)", lit "(b)") ∧
    setDefaultValues (lit "(a) (b)") = (lit "(a)", lit "(b)") :=
  ⟨((setDefaultValues_markers (lit "    ") (lit "Default") (lit "    REG_SZ    ")
      (lit "value not set") (lit "\r\n\r\n") (by decide) (by decide) (by decide)
      (by decide)).1 13 (lit "\nHKEY_CLASSES_ROOT") (by decide)).symm.symm,
   ((setDefaultValues_markers [] (lit "a") [] (lit "b") [] (by decide) (by decide) (by decide)
      (by decide)).1 120 (lit "\ry") (by decide)).symm.symm,
   ((setDefaultValues_markers [] (lit "a") (lit " ") (lit "b") [] (by decide) (by decide)
      (by decide) (by decide)).2 (by decide)).symm.symm⟩

/-! ## LocaleBootstrap: probes before commands -/

theorem guarded_append (tr : List Event) (e : Event) (h : Guarded tr)
    (he : ∀ args, e = .command args →
      Event.notFoundSettled true ∈ tr ∧ Event.defaultSettled true ∈ tr) :
    Guarded (tr ++ [e]) := by
  intro i args hi
  by_cases hlt : i < tr.length
  · rw [List.getElem?_append_left hlt] at hi
    rw [List.take_append_of_le_length (Nat.le_of_lt hlt)]
    exact h i args hi
  · have hge : tr.length ≤ i := Nat.le_of_not_lt hlt
    rw [List.getElem?_append_right hge] at hi
    have hi0 : i - tr.length = 0 := by
      by_contra hne
      have : 1 ≤ i - tr.length := Nat.one_le_iff_ne_zero.mpr hne
      rw [List.getElem?_eq_none (by simpa using this)] at hi
      cases hi
    rw [hi0] at hi
    simp at hi
    have hi' : i = tr.length := by omega
    obtain ⟨h1, h2⟩ := he args hi
    rw [hi', List.take_append_of_le_length (Nat.le_refl _), List.take_length]
    exact ⟨h1, h2⟩

theorem execInv_initial : ExecInv ExecState.initial where
  nf_unset := fun _ => rfl
  nf_once := by simp [ExecState.initial]
  df_unset := fun _ => rfl
  df_once := by simp [ExecState.initial]
  nf_done := fun h => by cases h
  df_done := fun h => by cases h
  replaced_done := fun h => by cases h
  guarded := fun i args h => by simp [ExecState.initial] at h

theorem execInv_callTemporary (s : ExecState) (args : List JsVal) (h : ExecInv s)
    (hr : s.replaced = false) : ExecInv (callTemporary s args) := by
  unfold callTemporary
  by_cases h1 : s.errMessagePromise = .unset <;> by_cases h2 : s.defaultValuesPromise = .unset
  · have c1 := h.nf_unset h1
    have c2 := h.df_unset h2
    simp only [h1, h2, if_true]
    exact {
      nf_unset := fun e => by cases e
      nf_once := by simp [List.filter_append, Event.isProbeNotFound, c1]
      df_unset := fun e => by cases e
      df_once := by simp [List.filter_append, Event.isProbeDefault, c2]
      nf_done := fun e => by cases e
      df_done := fun e => by cases e
      replaced_done := fun e => by simp [hr] at e
      guarded := guarded_append _ _ (guarded_append _ _ h.guarded (fun _ e => by cases e))
        (fun _ e => by cases e) }
  · have c1 := h.nf_unset h1
    simp only [h1, h2, if_true, if_false]
    exact {
      nf_unset := fun e => by cases e
      nf_once := by simp [List.filter_append, Event.isProbeNotFound, c1]
      df_unset := fun e => absurd e h2
      df_once := by simpa [List.filter_append, Event.isProbeDefault] using h.df_once
      nf_done := fun e => by cases e
      df_done := fun e => List.mem_append_left _ (h.df_done e)
      replaced_done := fun e => by simp [hr] at e
      guarded := guarded_append _ _ h.guarded (fun _ e => by cases e) }
  · have c2 := h.df_unset h2
    simp only [h1, h2, if_true, if_false]
    exact {
      nf_unset := fun e => absurd e h1
      nf_once := by simpa [List.filter_append, Event.isProbeNotFound] using h.nf_once
      df_unset := fun e => by cases e
      df_once := by simp [List.filter_append, Event.isProbeDefault, c2]
      nf_done := fun e => List.mem_append_left _ (h.nf_done e)
      df_done := fun e => by cases e
      replaced_done := fun e => by simp [hr] at e
      guarded := guarded_append _ _ h.guarded (fun _ e => by cases e) }
  · simp only [h1, h2, if_false]
    exact {
      nf_unset := fun e => absurd e h1
      nf_once := h.nf_once
      df_unset := fun e => absurd e h2
      df_once := h.df_once
      nf_done := h.nf_done
      df_done := h.df_done
      replaced_done := fun e => by simp [hr] at e
      guarded := h.guarded }

theorem execInv_command (s : ExecState) (args : List JsVal) (waiting : List (List JsVal))
    (h : ExecInv s) (h1 : s.errMessagePromise = .fulfilled)
    (h2 : s.defaultValuesPromise = .fulfilled) :
    ExecInv { s with waiting := waiting, replaced := true,
                     trace := s.trace ++ [.command args] } where
  nf_unset := fun e => by
    have := h.nf_unset e
    simpa [List.filter_append, Event.isProbeNotFound] using this
  nf_once := by simpa [List.filter_append, Event.isProbeNotFound] using h.nf_once
  df_unset := fun e => by
    have := h.df_unset e
    simpa [List.filter_append, Event.isProbeDefault] using this
  df_once := by simpa [List.filter_append, Event.isProbeDefault] using h.df_once
  nf_done := fun e => List.mem_append_left _ (h.nf_done e)
  df_done := fun e => List.mem_append_left _ (h.df_done e)
  replaced_done := fun _ => ⟨h1, h2⟩
  guarded := guarded_append _ _ h.guarded (fun _ _ => ⟨h.nf_done h1, h.df_done h2⟩)

theorem execInv_step (s s' : ExecState) (a : Action) (h : ExecInv s) (hs : step s a = some s') :
    ExecInv s' := by
  cases a with
  | call args =>
    simp only [step] at hs
    by_cases hr : s.replaced = true
    · rw [if_pos hr] at hs
      cases hs
      obtain ⟨h1, h2⟩ := h.replaced_done hr
      have := execInv_command s args s.waiting h h1 h2
      simpa [hr] using this
    · rw [if_neg hr] at hs
      cases hs
      exact execInv_callTemporary s args h (by simpa using hr)
  | settleNotFound ok =>
    simp only [step] at hs
    by_cases hp : s.errMessagePromise = .pending
    · rw [if_pos hp] at hs
      cases hs
      have hnr : s.replaced = true → False := fun hr => by
        have := (h.replaced_done hr).1
        rw [hp] at this
        cases this
      exact {
        nf_unset := fun e => by cases ok <;> cases e
        nf_once := by simpa [List.filter_append, Event.isProbeNotFound] using h.nf_once
        df_unset := fun e => by
          have := h.df_unset e
          simpa [List.filter_append, Event.isProbeDefault] using this
        df_once := by simpa [List.filter_append, Event.isProbeDefault] using h.df_once
        nf_done := fun e => by
          cases ok
          · cases e
          · simp
        df_done := fun e => List.mem_append_left _ (h.df_done e)
        replaced_done := fun e => absurd e (by simpa using hnr)
        guarded := guarded_append _ _ h.guarded (fun _ e => by cases e) }
    · rw [if_neg hp] at hs
      cases hs
  | settleDefault ok =>
    simp only [step] at hs
    by_cases hp : s.defaultValuesPromise = .pending
    · rw [if_pos hp] at hs
      cases hs
      have hnr : s.replaced = true → False := fun hr => by
        have := (h.replaced_done hr).2
        rw [hp] at this
        cases this
      exact {
        nf_unset := fun e => by
          have := h.nf_unset e
          simpa [List.filter_append, Event.isProbeNotFound] using this
        nf_once := by simpa [List.filter_append, Event.isProbeNotFound] using h.nf_once
        df_unset := fun e => by cases ok <;> cases e
        df_once := by simpa [List.filter_append, Event.isProbeDefault] using h.df_once
        nf_done := fun e => List.mem_append_left _ (h.nf_done e)
        df_done := fun e => by
          cases ok
          · cases e
          · simp
        replaced_done := fun e => absurd e (by simpa using hnr)
        guarded := guarded_append _ _ h.guarded (fun _ e => by cases e) }
    · rw [if_neg hp] at hs
      cases hs
  | resume i =>
    simp only [step] at hs
    cases hw : s.waiting.get? i with
    | none => rw [hw] at hs; cases hs
    | some args =>
      rw [hw] at hs
      simp only at hs
      by_cases hrej : s.errMessagePromise = .rejected ∨ s.defaultValuesPromise = .rejected
      · rw [if_pos hrej] at hs
        cases hs
        exact {
          nf_unset := h.nf_unset
          nf_once := h.nf_once
          df_unset := h.df_unset
          df_once := h.df_once
          nf_done := h.nf_done
          df_done := h.df_done
          replaced_done := h.replaced_done
          guarded := h.guarded }
      · rw [if_neg hrej] at hs
        by_cases hful : s.errMessagePromise = .fulfilled ∧ s.defaultValuesPromise = .fulfilled
        · rw [if_pos hful] at hs
          cases hs
          exact execInv_command s args _ h hful.1 hful.2
        · rw [if_neg hful] at hs
          cases hs

theorem execInv_run (acts : List Action) (s s' : ExecState) (h : ExecInv s)
    (hr : run s acts = some s') : ExecInv s' := by
  induction acts generalizing s with
  | nil =>
    simp only [run, Option.some.injEq] at hr
    exact hr ▸ h
  | cons a rest ih =>
    simp only [run] at hr
    cases hst : step s a with
    | none => rw [hst] at hr; cases hr
    | some s1 =>
      rw [hst] at hr
      exact ih s1 (execInv_step s s1 a h hst) hr

/-- C16: in every state reached from the initial module state by any sequence
of calls of `execute`, settlings of the two probe promises and continuations
of suspended callers, the not-found probe and the default-value probe have
each been spawned at most once, and every command spawned for a caller comes
after the events that report both probes fulfilled. -/
theorem bootstrap_gate (acts : List Action) (s : ExecState)
    (h : run ExecState.initial acts = some s) :
    (s.trace.filter Event.isProbeNotFound).length ≤ 1 ∧
    (s.trace.filter Event.isProbeDefault).length ≤ 1 ∧
    ∀ i args, s.trace[i]? = some (.command args) →
      Event.notFoundSettled true ∈ s.trace.take i ∧
      Event.defaultSettled true ∈ s.trace.take i :=
  have inv := execInv_run acts _ s execInv_initial h
  ⟨inv.nf_once, inv.df_once, inv.guarded⟩

/-- Two calls before the probes settle, then both callers continue and a
third call goes straight to `_execute`: the probes are spawned once each, and
the three commands come last. -/
theorem bootstrap_gate_witness :
    ∃ s, run ExecState.initial
        [.call [.string (lit "a")], .call [.string (lit "b")], .settleDefault true,
         .settleNotFound true, .resume 1, .call [.string (lit "c")], .resume 0] = some s ∧
      s.trace.length = 7 ∧
      (s.trace.filter Event.isProbeNotFound).length ≤ 1 ∧
      (s.trace.filter Event.isProbeDefault).length ≤ 1 ∧
      ∀ i args, s.trace[i]? = some (.command args) →
        Event.notFoundSettled true ∈ s.trace.take i ∧
        Event.defaultSettled true ∈ s.trace.take i :=
  ⟨_, rfl, rfl, bootstrap_gate
    [.call [.string (lit "a")], .call [.string (lit "b")], .settleDefault true,
     .settleNotFound true, .resume 1, .call [.string (lit "c")], .resume 0] _ rfl⟩

end RageEdit
